import Mathlib

/-!
Shallow embedding of the rsspec BDD test runner
(crates/rsspec/src/{lib.rs, runner.rs}).

Hook and case bodies are modelled as `Action` records describing their
observable interaction with the runner: an optional panic (with its message),
a call to `skip(reason)`, registrations on the deferred-cleanup stack, and
elapsed wall time.  The runner itself is translated function by function from
`runner.rs`; the decorator primitives (`labels_match_filter`, `with_retries`,
`run_with_timeout`) are translated from their standalone sources.
-/

namespace Rsspec

/-- Character-list helper: does `n` occur at the start of `h`? -/
def pfxAt : List Char → List Char → Bool
  | [], _ => true
  | _ :: _, [] => false
  | a :: as, b :: bs => a == b && pfxAt as bs

/-- Character-list helper: does `n` occur as a contiguous sublist of `h`? -/
def subAt (n : List Char) : List Char → Bool
  | [] => pfxAt n []
  | c :: t => pfxAt n (c :: t) || subAt n t

/-- `hay.contains(needle)` for strings (Rust `str::contains` with a `&str`
pattern): contiguous-substring test. -/
def strContainsStr (hay needle : String) : Bool :=
  subAt needle.toList hay.toList

/-- Rust `filter.contains(c)` for a single character. -/
def strContainsChar (s : String) (c : Char) : Bool :=
  s.toList.contains c

/-- Rust `s.split(c)` on a character list: splitting an empty string yields
one empty piece; each separator starts a new piece. -/
def splitChars (c : Char) : List Char → List (List Char)
  | [] => [[]]
  | x :: xs =>
    let r := splitChars c xs
    if x == c then [] :: r
    else
      match r with
      | [] => [[x]]
      | h :: t => (x :: h) :: t

/-- Rust `s.split(c)` returning strings. -/
def splitStr (s : String) (c : Char) : List String :=
  (splitChars c s.toList).map fun cs => String.mk cs

/-- Rust `str::trim`: remove leading and trailing whitespace. -/
def trimStr (s : String) : String :=
  String.mk
    (((s.toList.dropWhile Char.isWhitespace).reverse.dropWhile
      Char.isWhitespace).reverse)

/-- Rust `s.to_lowercase()` (ASCII-adequate model). -/
def lowerStr (s : String) : String :=
  String.mk (s.toList.map Char.toLower)

/-- Rust `term.strip_prefix('!')`: `some rest` when the term starts with `!`. -/
def stripBang (t : String) : Option String :=
  match t.toList with
  | '!' :: rest => some (String.mk rest)
  | _ => none

/-- The mutable-flag loop over OR-terms in `labels_match_filter`
(lib.rs lines 130–147), translated with the two flags as accumulators:
`hasPos` — a positive term was seen; `posMatch` — a positive term matched. -/
def orTermLoop (labels : List String) : List String → Bool → Bool → Bool
  | [], hasPos, posMatch => !hasPos || posMatch
  | t :: rest, hasPos, posMatch =>
    let term := trimStr t
    match stripBang term with
    | some negated =>
      if labels.contains negated then false
      else orTermLoop labels rest hasPos posMatch
    | none => orTermLoop labels rest true (posMatch || labels.contains term)

/-- `labels_match_filter` (lib.rs lines 107–152): label-filter evaluator.
Mixing `+` and `,` is rejected; `+` builds an AND filter over all terms;
otherwise the comma-separated OR loop runs. -/
def labels_match_filter (labels : List String) (filter : String) : Bool :=
  if strContainsChar filter '+' && strContainsChar filter ',' then false
  else if strContainsChar filter '+' then
    (splitStr filter '+').all fun t =>
      let term := trimStr t
      match stripBang term with
      | some negated => !(labels.contains negated)
      | none => labels.contains term
  else
    orTermLoop labels (splitStr filter ',') false false

/-- `with_retries` (lib.rs lines 155–185), with the body modelled as a map
from attempt number (1-based) to an optional panic message.  Returns the
final outcome together with the number of the attempt that produced it.
`remaining` counts the extra attempts still allowed after the current one. -/
def retryFrom (body : Nat → Option String) (attempt : Nat) :
    Nat → Option String × Nat
  | 0 => (body attempt, attempt)
  | remaining + 1 =>
    match body attempt with
    | none => (none, attempt)
    | some _ => retryFrom body (attempt + 1) remaining

/-- `with_retries(retries, f)`: up to `retries + 1` attempts starting at
attempt 1; return on first success; else propagate the last failure. -/
def with_retries (retries : Nat) (body : Nat → Option String) :
    Option String × Nat :=
  retryFrom body 1 retries

/-- `must_pass_repeatedly` (lib.rs lines 188–195): run the body `n` times,
propagating the first failure immediately.  Returns the outcome and the
number of invocations performed. -/
def must_pass_repeatedly_from (body : Nat → Option String) (attempt : Nat) :
    Nat → Option String × Nat
  | 0 => (none, attempt - 1)
  | remaining + 1 =>
    match body attempt with
    | some e => (some e, attempt)
    | none => must_pass_repeatedly_from body (attempt + 1) remaining

/-- `must_pass_repeatedly(n, f)` starting at attempt 1. -/
def must_pass_repeatedly (n : Nat) (body : Nat → Option String) :
    Option String × Nat :=
  must_pass_repeatedly_from body 1 n

/-- The timeout-failure message built in `run_with_timeout`
(runner.rs lines 787–791). -/
def timeoutMsg (ms : Nat) (orig : Option String) : String :=
  match orig with
  | some m =>
    "test timed out after " ++ toString ms ++ "ms (original error: " ++ m ++ ")"
  | none => "test timed out after " ++ toString ms ++ "ms"

/-- `run_with_timeout` (runner.rs lines 769–796): the body runs on the current
thread; its measured elapsed time and its outcome are the inputs here.  If the
elapsed time strictly exceeds the deadline, a timeout failure is reported
regardless of the body's own outcome, embedding the original message if the
body also failed; otherwise the body's outcome stands. -/
def run_with_timeout (ms : Nat) (elapsed : Nat) (bodyOutcome : Option String) :
    Option String :=
  if elapsed > ms then some (timeoutMsg ms bodyOutcome)
  else bodyOutcome

/-- A deferred-cleanup callback (registered via `defer_cleanup`, lib.rs
lines 220–224), modelled by its observable behaviour: an identity for the
execution trace and an optional panic message. -/
structure Cleanup where
  cid : Nat
  cpanics : Option String := none
deriving Repr, DecidableEq

/-- A hook or test body (`Box<dyn Fn()>`), modelled by its observable
interaction with the runner: an identity recorded in the execution trace,
an optional `skip(reason)` call, cleanups registered via `defer_cleanup`
(in registration order), elapsed wall-clock milliseconds, and an optional
panic message (the panic, if any, ends the closure). -/
structure Action where
  aid : Nat
  skips : Option String := none
  defers : List Cleanup := []
  elapsed : Nat := 0
  panics : Option String := none
deriving Repr, DecidableEq

/-- A trace event: which closure ran. -/
inductive Ev where
  | act (aid : Nat)
  | clean (cid : Nat)
deriving Repr, DecidableEq

/-- `RunResult` (runner.rs lines 258–265). -/
structure RunResult where
  passed : Nat := 0
  failed : Nat := 0
  pending : Nat := 0
  skipped : Nat := 0
  failures : List String := []
deriving Repr, DecidableEq

/-- `RunConfig` (runner.rs lines 268–275) together with the ambient
environment variables the runner consults: `RSSPEC_LABEL_FILTER`
(lib.rs lines 92–98) and `RSSPEC_FAIL_ON_FOCUS` (lib.rs lines 198–207). -/
structure RunConfig where
  filter : Option String := none
  list : Bool := false
  includeIgnored : Bool := false
  labelFilter : Option String := none
  failOnFocus : Bool := false
deriving Repr, DecidableEq

/-- The runner's mutable context: the thread-local skip flag
(`SKIP_REASON`), the thread-local cleanup stack (`CLEANUP_STACK`), the
wall clock, the execution trace of invoked closures, and the `RunResult`
accumulator. -/
structure ExecState where
  skipReason : Option String := none
  cleanups : List Cleanup := []
  now : Nat := 0
  trace : List Ev := []
  result : RunResult := {}
deriving Repr, DecidableEq

/-- Invoke a hook/body closure: record it in the trace, advance the clock,
perform its `skip` call and `defer_cleanup` registrations, and report its
panic (if any).  `none` means the closure returned normally. -/
def invokeAction (a : Action) (s : ExecState) : Option String × ExecState :=
  (a.panics,
    { s with
      trace := s.trace ++ [Ev.act a.aid]
      now := s.now + a.elapsed
      skipReason := match a.skips with
        | some r => some r
        | none => s.skipReason
      cleanups := s.cleanups ++ a.defers })

/-- Run a list of closures in order inside one `catch_unwind`: the first
panic aborts the rest of the list and is the reported outcome. -/
def invokeSeq : List Action → ExecState → Option String × ExecState
  | [], s => (none, s)
  | a :: rest, s =>
    match invokeAction a s with
    | (some e, s') => (some e, s')
    | (none, s') => invokeSeq rest s'

/-- Run a list of closures where each is individually wrapped in
`catch_unwind`: all of them run; the first panic (if any) is remembered. -/
def invokeEachGuarded : List Action → ExecState → Option String × ExecState
  | [], s => (none, s)
  | a :: rest, s =>
    let (p, s') := invokeAction a s
    let (prest, s'') := invokeEachGuarded rest s'
    (match p with
      | some e => some e
      | none => prest, s'')

/-- Run a list of cleanups, each individually guarded; all run, and the
first panic is remembered (lib.rs lines 230–247, the drain loop). -/
def runCleanupList : List Cleanup → ExecState → Option String × ExecState
  | [], s => (none, s)
  | c :: rest, s =>
    let s' := { s with trace := s.trace ++ [Ev.clean c.cid] }
    let (prest, s'') := runCleanupList rest s'
    (match c.cpanics with
      | some e => some e
      | none => prest, s'')

/-- `run_deferred_cleanups` (lib.rs lines 230–247): drain the stack, run the
callbacks in reverse (LIFO) order each individually guarded, then re-raise
the first cleanup panic, if any. -/
def run_deferred_cleanups (s : ExecState) : Option String × ExecState :=
  runCleanupList s.cleanups.reverse { s with cleanups := [] }

/-- `HookChain` (runner.rs lines 164–200): hooks and labels accumulated from
ancestor `Describe` nodes, all outermost-first. -/
structure HookChain where
  before_each : List Action := []
  after_each : List Action := []
  just_before_each : List Action := []
  labels : List String := []
deriving Repr, DecidableEq

/-- A step in an ordered test sequence (runner.rs lines 21–24). -/
structure OrderedStep where
  sname : String
  body : Action
deriving Repr, DecidableEq

/-- `TestNode` (runner.rs lines 27–59). -/
inductive TestNode where
  | describe (name : String) (focused pending : Bool) (labels : List String)
      (before_each after_each before_all after_all just_before_each :
        List Action)
      (children : List TestNode)
  | it (name : String) (focused pending : Bool) (labels : List String)
      (retries : Option Nat) (timeout_ms : Option Nat)
      (must_pass_repeatedly : Option Nat) (test_fn : Action)
  | ordered (name : String) (labels : List String)
      (continue_on_failure : Bool) (steps : List OrderedStep)
deriving Repr

/-- `HookChain::with_describe` (runner.rs lines 173–199): extend the chain
with a `Describe` node's each-hooks and labels. -/
def HookChain.withDescribe (chain : HookChain) (node : TestNode) : HookChain :=
  match node with
  | .describe _ _ _ labels be ae _ _ jbe _ =>
    { chain with
      before_each := chain.before_each ++ be
      after_each := chain.after_each ++ ae
      just_before_each := chain.just_before_each ++ jbe
      labels := chain.labels ++ labels }
  | _ => chain

/-- `check_labels` (lib.rs lines 92–98): `true` (run the test) when no
label-filter is configured or the configured filter is empty. -/
def check_labels (labels : List String) (cfg : RunConfig) : Bool :=
  match cfg.labelFilter with
  | some f => if f = "" then true else labels_match_filter labels f
  | none => true

/-- The path-filter test in `run_node` (runner.rs lines 494–498):
case-insensitive substring match of the configured filter against the
full `" > "`-joined path; `true` means the node survives the filter. -/
def passesPathFilter (cfg : RunConfig) (fullPath : String) : Bool :=
  match cfg.filter with
  | some f => strContainsStr (lowerStr fullPath) (lowerStr f)
  | none => true

/-- The `test_body` closure (runner.rs lines 533–567): run before-each,
just-before-each and the test body inside one `catch_unwind`; then every
after-each hook innermost-first, each individually guarded, remembering the
first after-each panic; then the deferred cleanups (whose own first panic is
re-raised inside `run_deferred_cleanups`, and hence escapes first); finally
re-raise the body failure, else the first after-each failure. -/
def bodyPhase (chain : HookChain) (tf : Action) (s : ExecState) :
    Option String × ExecState :=
  match invokeSeq chain.before_each s with
  | (some e, s') => (some e, s')
  | (none, s') =>
    match invokeSeq chain.just_before_each s' with
    | (some e, s'') => (some e, s'')
    | (none, s'') => invokeAction tf s''

/-- The shared tail of `test_body` and of the ordered-sequence body
(runner.rs lines 546–566 and 684–703): after-each hooks innermost-first each
guarded, then deferred cleanups, then failure propagation with the cleanup
panic escaping first, else the body failure, else the first after-each
failure. -/
def hookTail (bodyP : Option String) (chain : HookChain) (s : ExecState) :
    Option String × ExecState :=
  let (aeP, s') := invokeEachGuarded chain.after_each.reverse s
  let (clP, s'') := run_deferred_cleanups s'
  (match clP with
    | some e => some e
    | none =>
      match bodyP with
      | some e => some e
      | none => aeP, s'')

/-- The full composed `test_body` closure for an `It` node. -/
def testBody (chain : HookChain) (tf : Action) (s : ExecState) :
    Option String × ExecState :=
  let (bodyP, s') := bodyPhase chain tf s
  hookTail bodyP chain s'

/-- `with_retries(n, f)` as applied by the runner to a re-invocable composed
body (runner.rs lines 571–577 with lib.rs lines 155–185): up to `n + 1`
attempts, returning on the first success, propagating only the last
failure. -/
def withRetriesRun (n : Nat) (body : ExecState → Option String × ExecState)
    (s : ExecState) : Option String × ExecState :=
  match body s with
  | (none, s') => (none, s')
  | (some e, s') =>
    match n with
    | 0 => (some e, s')
    | k + 1 => withRetriesRun k body s'

/-- `must_pass_repeatedly(n, f)` as applied by the runner (runner.rs lines
579–585 with lib.rs lines 188–195): `n` sequential invocations, stopping at
and propagating the first failure. -/
def mustPassRun (n : Nat) (body : ExecState → Option String × ExecState)
    (s : ExecState) : Option String × ExecState :=
  match n with
  | 0 => (none, s)
  | k + 1 =>
    match body s with
    | (some e, s') => (some e, s')
    | (none, s') => mustPassRun k body s'

/-- `run_with_timeout` as applied by the runner (runner.rs lines 587–588 and
769–796): run the composed body, measure its elapsed time on the model
clock, and post-process the outcome with `run_with_timeout`. -/
def timeoutRun (ms : Nat) (body : ExecState → Option String × ExecState)
    (s : ExecState) : Option String × ExecState :=
  let (p, s') := body s
  (run_with_timeout ms (s'.now - s.now) p, s')

/-- The `with_retries` closure of `run_node` (runner.rs lines 571–577). -/
def retriesClosure (retries : Option Nat) (chain : HookChain) (tf : Action) :
    ExecState → Option String × ExecState := fun s =>
  match retries with
  | some n => withRetriesRun n (testBody chain tf) s
  | none => testBody chain tf s

/-- The `with_must_pass_repeatedly` closure of `run_node`
(runner.rs lines 579–585). -/
def mprClosure (retries mpr : Option Nat) (chain : HookChain) (tf : Action) :
    ExecState → Option String × ExecState := fun s =>
  match mpr with
  | some n => mustPassRun n (retriesClosure retries chain tf) s
  | none => retriesClosure retries chain tf s

/-- The decorator composition for an `It` node (runner.rs lines 569–591):
retries innermost, then must-pass-repeatedly, then timeout outermost. -/
def composedBody (retries timeout_ms mpr : Option Nat) (chain : HookChain)
    (tf : Action) (s : ExecState) : Option String × ExecState :=
  match timeout_ms with
  | some ms => timeoutRun ms (mprClosure retries mpr chain tf) s
  | none => mprClosure retries mpr chain tf s

/-- `report_outcome` (runner.rs lines 732–761): a success increments
`passed`; a failure increments `failed` and appends
`"<path>: <message>"` to the failure list. -/
def report_outcome (fullPath : String) (outcome : Option String)
    (r : RunResult) : RunResult :=
  match outcome with
  | none => { r with passed := r.passed + 1 }
  | some m =>
    { r with
      failed := r.failed + 1
      failures := r.failures ++ [fullPath ++ ": " ++ m] }

/-- `take_skip_reason` (lib.rs lines 278–280): read and clear the
thread-local skip flag. -/
def take_skip_reason (s : ExecState) : Option String × ExecState :=
  (s.skipReason, { s with skipReason := none })

/-- `check_fail_on_focus` (lib.rs lines 198–207): panics (aborting the whole
run) when the fail-on-focus environment flag is set. -/
def check_fail_on_focus (cfg : RunConfig) : Option String :=
  if cfg.failOnFocus then
    some "rsspec: focused tests detected but RSSPEC_FAIL_ON_FOCUS is set."
  else none

mutual

/-- The per-node closure of `tree_has_focus` (runner.rs lines 875–883). -/
def nodeHasFocus : TestNode → Bool
  | .it _ focused _ _ _ _ _ _ => focused
  | .describe _ focused _ _ _ _ _ _ _ children =>
    focused || treeHasFocus children
  | .ordered _ _ _ _ => false

/-- `tree_has_focus` (runner.rs lines 875–883). -/
def treeHasFocus : List TestNode → Bool
  | [] => false
  | node :: rest => nodeHasFocus node || treeHasFocus rest

end

mutual

/-- One node of `run_nodes_pending` (runner.rs lines 712–730): a `Describe`
recurses, a leaf is counted as pending. -/
def runNodePending : TestNode → ExecState → ExecState
  | .describe _ _ _ _ _ _ _ _ _ children, s => runNodesPending children s
  | .it _ _ _ _ _ _ _ _, s =>
    { s with result := { s.result with pending := s.result.pending + 1 } }
  | .ordered _ _ _ _, s =>
    { s with result := { s.result with pending := s.result.pending + 1 } }

/-- `run_nodes_pending` (runner.rs lines 712–730): mark every descendant
`It`/`Ordered` leaf as pending. -/
def runNodesPending : List TestNode → ExecState → ExecState
  | [], s => s
  | node :: rest, s => runNodesPending rest (runNodePending node s)

end

/-- The Rust `" > "` path join. -/
def joinPath (path : List String) : String :=
  String.intercalate " > " path

/-- The `continue_on_failure` step loop: every step body runs, each inside
its own `catch_unwind`; the number of failing steps is returned. -/
def collectSteps : List OrderedStep → ExecState → Nat × ExecState
  | [], s => (0, s)
  | st :: rest, s =>
    let (p, s') := invokeAction st.body s
    let (k, s'') := collectSteps rest s'
    ((if p.isSome then 1 else 0) + k, s'')

/-- The ordered-sequence inner body (runner.rs lines 654–682): before-each
and just-before-each hooks, then the steps in declaration order.  With
`continue_on_failure` false a step panic propagates immediately; with it
true every step runs, failures are counted, and a non-zero count panics with
the summary message. -/
def orderedInner (chain : HookChain) (steps : List OrderedStep)
    (continue_on_failure : Bool) (s : ExecState) : Option String × ExecState :=
  match invokeSeq chain.before_each s with
  | (some e, s') => (some e, s')
  | (none, s') =>
    match invokeSeq chain.just_before_each s' with
    | (some e, s'') => (some e, s'')
    | (none, s'') =>
      if continue_on_failure then
        let (k, s3) := collectSteps steps s''
        if k > 0 then
          (some (toString k ++ " of " ++ toString steps.length ++
            " ordered steps failed"), s3)
        else (none, s3)
      else invokeSeq (steps.map (·.body)) s''

mutual

/-- `run_node` (runner.rs lines 400–709).  The returned `Option String` is a
panic escaping the runner itself — only the fail-on-focus CI guard produces
one; every test/hook failure is captured into the `RunResult`. -/
def runNode (cfg : RunConfig) (focusMode : Bool) (node : TestNode)
    (path : List String) (chain : HookChain) (forceFocused : Bool)
    (s : ExecState) : Option String × ExecState :=
  match node with
  | .describe name focused pending _ _ _ before_all after_all _ children =>
    let childPath := path ++ [name]
    if pending then
      (none, runNodesPending children s)
    else
      let childChain := chain.withDescribe node
      let childForce := forceFocused || focused
      let (beforeAllP, s1) := invokeSeq before_all s
      let (abortP, s2) :=
        match beforeAllP with
        | some e =>
          (none,
            { s1 with
              result :=
                { s1.result with
                  failed := s1.result.failed + 1
                  failures := s1.result.failures ++
                    [joinPath childPath ++ " (before_all): " ++ e] } })
        | none =>
          runNodes cfg focusMode children childPath childChain childForce s1
      match abortP with
      | some e => (some e, s2)
      | none =>
        let (afterAllP, s3) := invokeSeq after_all s2
        match afterAllP with
        | some e =>
          (none,
            { s3 with
              result :=
                { s3.result with
                  failed := s3.result.failed + 1
                  failures := s3.result.failures ++
                    [joinPath childPath ++ " (after_all): " ++ e] } })
        | none => (none, s3)
  | .it name focused pending labels retries timeout_ms mpr tf =>
    let fullPath := joinPath (path ++ [name])
    if !passesPathFilter cfg fullPath then (none, s)
    else if pending then
      (none, { s with result := { s.result with pending := s.result.pending + 1 } })
    else
      let effectivelyFocused := focused || forceFocused
      if focusMode && !effectivelyFocused && !cfg.includeIgnored then
        (none, { s with result := { s.result with skipped := s.result.skipped + 1 } })
      else
        match (if effectivelyFocused && focusMode
               then check_fail_on_focus cfg else none) with
        | some e => (some e, s)
        | none =>
          if !check_labels (chain.labels ++ labels) cfg then (none, s)
          else
            let (outcome, s1) := composedBody retries timeout_ms mpr chain tf s
            match outcome with
            | none =>
              let (reason, s2) := take_skip_reason s1
              match reason with
              | some _ =>
                (none,
                  { s2 with
                    result := { s2.result with skipped := s2.result.skipped + 1 } })
              | none =>
                (none, { s2 with result := report_outcome fullPath none s2.result })
            | some m =>
              let (_, s2) := take_skip_reason s1
              (none, { s2 with result := report_outcome fullPath (some m) s2.result })
  | .ordered name labels continue_on_failure steps =>
    let fullPath := joinPath (path ++ [name])
    if !passesPathFilter cfg fullPath then (none, s)
    else if focusMode && !forceFocused && !cfg.includeIgnored then
      (none, { s with result := { s.result with skipped := s.result.skipped + 1 } })
    else
      match (if forceFocused && focusMode
             then check_fail_on_focus cfg else none) with
      | some e => (some e, s)
      | none =>
        if !check_labels (chain.labels ++ labels) cfg then (none, s)
        else
          let (bodyP, s1) := orderedInner chain steps continue_on_failure s
          let (outcome, s2) := hookTail bodyP chain s1
          (none, { s2 with result := report_outcome fullPath outcome s2.result })

/-- `run_nodes` (runner.rs lines 385–398): run the siblings in order.  An
escaping panic (fail-on-focus) unwinds past the remaining siblings. -/
def runNodes (cfg : RunConfig) (focusMode : Bool) (nodes : List TestNode)
    (path : List String) (chain : HookChain) (forceFocused : Bool)
    (s : ExecState) : Option String × ExecState :=
  match nodes with
  | [] => (none, s)
  | node :: rest =>
    match runNode cfg focusMode node path chain forceFocused s with
    | (some e, s') => (some e, s')
    | (none, s') => runNodes cfg focusMode rest path chain forceFocused s'

end

/-- Does some hook in the list panic?  (Statically determined by the
`Action` model; this is when the surrounding `catch_unwind` reports `Err`.) -/
def anyPanics (hooks : List Action) : Bool :=
  hooks.any fun a => a.panics.isSome

mutual

/-- Number of `It`/`Ordered` leaves under a node, irrespective of any
filtering — what `run_nodes_pending` marks as pending. -/
def leafCount : TestNode → Nat
  | .describe _ _ _ _ _ _ _ _ _ children => leafCounts children
  | .it _ _ _ _ _ _ _ _ => 1
  | .ordered _ _ _ _ => 1

def leafCounts : List TestNode → Nat
  | [] => 0
  | node :: rest => leafCount node + leafCounts rest

end

mutual

/-- Number of `It`/`Ordered` leaves the traversal *encounters and counts*:
mirrors `run_node`'s branch structure — a pending group counts all its
descendant leaves; a failing `before_all` prevents the children from being
encountered; a leaf counts unless the path filter or label filter rejects
it (pending and focus-skipped leaves are encountered and counted). -/
def encNode (cfg : RunConfig) (focusMode : Bool) : TestNode →
    List String → List String → Bool → Nat
  | .describe name focused pending labels _ _ before_all _ _ children,
    path, ancLabels, force =>
    if pending then leafCounts children
    else if anyPanics before_all then 0
    else
      encNodes cfg focusMode children (path ++ [name]) (ancLabels ++ labels)
        (force || focused)
  | .it name focused pending labels _ _ _ _, path, ancLabels, force =>
    if !passesPathFilter cfg (joinPath (path ++ [name])) then 0
    else if pending then 1
    else if focusMode && !(focused || force) && !cfg.includeIgnored then 1
    else if !check_labels (ancLabels ++ labels) cfg then 0
    else 1
  | .ordered name labels _ _, path, ancLabels, force =>
    if !passesPathFilter cfg (joinPath (path ++ [name])) then 0
    else if focusMode && !force && !cfg.includeIgnored then 1
    else if !check_labels (ancLabels ++ labels) cfg then 0
    else 1

def encNodes (cfg : RunConfig) (focusMode : Bool) : List TestNode →
    List String → List String → Bool → Nat
  | [], _, _, _ => 0
  | node :: rest, path, ancLabels, force =>
    encNode cfg focusMode node path ancLabels force +
      encNodes cfg focusMode rest path ancLabels force

end

mutual

/-- Number of group-hook (`before_all`/`after_all`) failure entries the
traversal records: one per group whose `before_all` loop panics, one per
group whose `after_all` loop panics; children below a failed `before_all`
or a pending group are never visited. -/
def hookFailNode : TestNode → Nat
  | .describe _ _ pending _ _ _ before_all after_all _ children =>
    if pending then 0
    else
      (if anyPanics before_all then 1 else hookFailNodes children) +
        (if anyPanics after_all then 1 else 0)
  | .it _ _ _ _ _ _ _ _ => 0
  | .ordered _ _ _ _ => 0

def hookFailNodes : List TestNode → Nat
  | [] => 0
  | node :: rest => hookFailNode node + hookFailNodes rest

end

/-- A named suite (runner.rs lines 307–319). -/
structure Suite where
  sname : String
  nodes : List TestNode

/-- `run_suites` (runner.rs lines 342–382): compute focus mode across all
suites, start from a fresh `RunResult`, honour list-only mode, and run each
suite's nodes with a fresh hook chain. -/
def runSuitesFrom (cfg : RunConfig) (focusMode : Bool) :
    List Suite → ExecState → Option String × ExecState
  | [], s => (none, s)
  | suite :: rest, s =>
    match runNodes cfg focusMode suite.nodes [] {} false s with
    | (some e, s') => (some e, s')
    | (none, s') => runSuitesFrom cfg focusMode rest s'

/-- `run_suites` entry point: `amb` carries the ambient thread-local state
(skip flag, cleanup stack, clock); the `RunResult` is created fresh. -/
def run_suites (cfg : RunConfig) (suites : List Suite) (amb : ExecState) :
    Option String × ExecState :=
  let focusMode := suites.any fun st => treeHasFocus st.nodes
  let s0 : ExecState := { amb with result := {} }
  if cfg.list then (none, s0)
  else runSuitesFrom cfg focusMode suites s0

/-! ## Characterization lemmas for the hook/body phases -/

/-- First panic message among a list of closures (all of which would run
under individual guards, or of which a prefix runs under one guard). -/
def firstPanicIn : List Action → Option String
  | [] => none
  | a :: rest =>
    match a.panics with
    | some e => some e
    | none => firstPanicIn rest

/-- The prefix of closures that actually runs under a single
`catch_unwind`: everything up to and including the first panicking one. -/
def takeToPanic : List Action → List Action
  | [] => []
  | a :: rest => if a.panics.isSome then [a] else a :: takeToPanic rest

/-- First panic message among a list of cleanups. -/
def firstCPanicIn : List Cleanup → Option String
  | [] => none
  | c :: rest =>
    match c.cpanics with
    | some e => some e
    | none => firstCPanicIn rest

theorem invokeSeq_fst (as : List Action) (s : ExecState) :
    (invokeSeq as s).1 = firstPanicIn as := by
  induction as generalizing s with
  | nil => rfl
  | cons a rest ih =>
    simp only [invokeSeq, invokeAction, firstPanicIn]
    cases a.panics with
    | none => simpa using ih _
    | some e => rfl

theorem invokeSeq_trace (as : List Action) (s : ExecState) :
    (invokeSeq as s).2.trace =
      s.trace ++ (takeToPanic as).map (fun a => Ev.act a.aid) := by
  induction as generalizing s with
  | nil => simp [invokeSeq, takeToPanic]
  | cons a rest ih =>
    simp only [invokeSeq, invokeAction, takeToPanic]
    cases hp : a.panics with
    | none => simp [hp, ih]
    | some e => simp [hp]

theorem invokeSeq_result (as : List Action) (s : ExecState) :
    (invokeSeq as s).2.result = s.result := by
  induction as generalizing s with
  | nil => rfl
  | cons a rest ih =>
    simp only [invokeSeq, invokeAction]
    cases a.panics with
    | none => simpa using ih _
    | some e => rfl

theorem invokeEachGuarded_fst (as : List Action) (s : ExecState) :
    (invokeEachGuarded as s).1 = firstPanicIn as := by
  induction as generalizing s with
  | nil => rfl
  | cons a rest ih =>
    simp only [invokeEachGuarded, invokeAction, firstPanicIn]
    cases a.panics with
    | none => simpa using ih _
    | some e => rfl

theorem invokeEachGuarded_trace (as : List Action) (s : ExecState) :
    (invokeEachGuarded as s).2.trace =
      s.trace ++ as.map (fun a => Ev.act a.aid) := by
  induction as generalizing s with
  | nil => simp [invokeEachGuarded]
  | cons a rest ih => simp [invokeEachGuarded, invokeAction, ih]

theorem invokeEachGuarded_result (as : List Action) (s : ExecState) :
    (invokeEachGuarded as s).2.result = s.result := by
  induction as generalizing s with
  | nil => rfl
  | cons a rest ih => simp [invokeEachGuarded, invokeAction, ih]

theorem runCleanupList_fst (cs : List Cleanup) (s : ExecState) :
    (runCleanupList cs s).1 = firstCPanicIn cs := by
  induction cs generalizing s with
  | nil => rfl
  | cons c rest ih =>
    simp only [runCleanupList, firstCPanicIn]
    cases c.cpanics with
    | none => simpa using ih _
    | some e => rfl

theorem runCleanupList_result (cs : List Cleanup) (s : ExecState) :
    (runCleanupList cs s).2.result = s.result := by
  induction cs generalizing s with
  | nil => rfl
  | cons c rest ih => simp [runCleanupList, ih]

theorem runCleanupList_trace (cs : List Cleanup) (s : ExecState) :
    (runCleanupList cs s).2.trace =
      s.trace ++ cs.map (fun c => Ev.clean c.cid) := by
  induction cs generalizing s with
  | nil => simp [runCleanupList]
  | cons c rest ih => simp [runCleanupList, ih]

theorem run_deferred_cleanups_result (s : ExecState) :
    (run_deferred_cleanups s).2.result = s.result := by
  simp [run_deferred_cleanups, runCleanupList_result]

theorem bodyPhase_result (chain : HookChain) (tf : Action) (s : ExecState) :
    (bodyPhase chain tf s).2.result = s.result := by
  simp only [bodyPhase]
  rcases h1 : invokeSeq chain.before_each s with ⟨p1, s1⟩
  have e1 : s1.result = s.result := by
    have h := invokeSeq_result chain.before_each s; rw [h1] at h; exact h
  cases p1 with
  | some e => simp [e1]
  | none =>
    rcases h2 : invokeSeq chain.just_before_each s1 with ⟨p2, s2⟩
    have e2 : s2.result = s1.result := by
      have h := invokeSeq_result chain.just_before_each s1; rw [h2] at h
      exact h
    cases p2 with
    | some e => simp [h2, e2, e1]
    | none => simp [h2, invokeAction, e2, e1]

theorem hookTail_result (bodyP : Option String) (chain : HookChain)
    (s : ExecState) : (hookTail bodyP chain s).2.result = s.result := by
  simp only [hookTail]
  rcases hg : invokeEachGuarded chain.after_each.reverse s with ⟨aeP, s1⟩
  have e1 : s1.result = s.result := by
    have h := invokeEachGuarded_result chain.after_each.reverse s
    rw [hg] at h; exact h
  rcases hc : run_deferred_cleanups s1 with ⟨clP, s2⟩
  have e2 : s2.result = s1.result := by
    have h := run_deferred_cleanups_result s1; rw [hc] at h; exact h
  simp [hc, e2, e1]

theorem testBody_result (chain : HookChain) (tf : Action) (s : ExecState) :
    (testBody chain tf s).2.result = s.result := by
  simp only [testBody]
  rcases hb : bodyPhase chain tf s with ⟨p, s1⟩
  have e1 : s1.result = s.result := by
    have h := bodyPhase_result chain tf s; rw [hb] at h; exact h
  rw [hookTail_result, e1]

theorem withRetriesRun_result (n : Nat)
    (body : ExecState → Option String × ExecState)
    (hb : ∀ s, (body s).2.result = s.result) (s : ExecState) :
    (withRetriesRun n body s).2.result = s.result := by
  induction n generalizing s with
  | zero =>
    rw [withRetriesRun]
    rcases h : body s with ⟨p, s'⟩
    have e : s'.result = s.result := by
      have h' := hb s; rw [h] at h'; exact h'
    cases p <;> simpa using e
  | succ k ih =>
    rw [withRetriesRun]
    rcases h : body s with ⟨p, s'⟩
    have e : s'.result = s.result := by
      have h' := hb s; rw [h] at h'; exact h'
    cases p with
    | none => simpa using e
    | some _ => simp only []; rw [ih s']; exact e

theorem mustPassRun_result (n : Nat)
    (body : ExecState → Option String × ExecState)
    (hb : ∀ s, (body s).2.result = s.result) (s : ExecState) :
    (mustPassRun n body s).2.result = s.result := by
  induction n generalizing s with
  | zero => rfl
  | succ k ih =>
    simp only [mustPassRun]
    rcases h : body s with ⟨p, s'⟩
    have e : s'.result = s.result := by
      have h' := hb s; rw [h] at h'; exact h'
    cases p with
    | some _ => simpa using e
    | none => rw [ih s']; exact e

theorem timeoutRun_result (ms : Nat)
    (body : ExecState → Option String × ExecState)
    (hb : ∀ s, (body s).2.result = s.result) (s : ExecState) :
    (timeoutRun ms body s).2.result = s.result := by
  simp only [timeoutRun]
  rcases h : body s with ⟨p, s'⟩
  have e : s'.result = s.result := by
    have h' := hb s; rw [h] at h'; exact h'
  simpa using e

theorem retriesClosure_result (retries : Option Nat) (chain : HookChain)
    (tf : Action) (s : ExecState) :
    (retriesClosure retries chain tf s).2.result = s.result := by
  cases retries with
  | none => exact testBody_result chain tf s
  | some n => exact withRetriesRun_result n _ (testBody_result chain tf) s

theorem mprClosure_result (retries mpr : Option Nat) (chain : HookChain)
    (tf : Action) (s : ExecState) :
    (mprClosure retries mpr chain tf s).2.result = s.result := by
  cases mpr with
  | none => exact retriesClosure_result retries chain tf s
  | some n =>
    exact mustPassRun_result n _ (retriesClosure_result retries chain tf) s

theorem composedBody_result (retries timeout_ms mpr : Option Nat)
    (chain : HookChain) (tf : Action) (s : ExecState) :
    (composedBody retries timeout_ms mpr chain tf s).2.result = s.result := by
  simp only [composedBody]
  cases timeout_ms with
  | none => exact mprClosure_result retries mpr chain tf s
  | some ms =>
    exact timeoutRun_result ms _ (mprClosure_result retries mpr chain tf) s

theorem collectSteps_result (steps : List OrderedStep) (s : ExecState) :
    (collectSteps steps s).2.result = s.result := by
  induction steps generalizing s with
  | nil => rfl
  | cons st rest ih => simp [collectSteps, invokeAction, ih]

theorem orderedInner_result (chain : HookChain) (steps : List OrderedStep)
    (cof : Bool) (s : ExecState) :
    (orderedInner chain steps cof s).2.result = s.result := by
  simp only [orderedInner]
  rcases h1 : invokeSeq chain.before_each s with ⟨p1, s1⟩
  have e1 : s1.result = s.result := by
    have h := invokeSeq_result chain.before_each s; rw [h1] at h; exact h
  cases p1 with
  | some e => simp [e1]
  | none =>
    rcases h2 : invokeSeq chain.just_before_each s1 with ⟨p2, s2⟩
    have e2 : s2.result = s1.result := by
      have h := invokeSeq_result chain.just_before_each s1; rw [h2] at h
      exact h
    cases p2 with
    | some e => simp [h2, e2, e1]
    | none =>
      cases cof with
      | false => simp [h2, invokeSeq_result, e2, e1]
      | true =>
        rcases h3 : collectSteps steps s2 with ⟨k, s3⟩
        have e3 : s3.result = s2.result := by
          have h := collectSteps_result steps s2; rw [h3] at h; exact h
        by_cases hk : k > 0 <;> simp [h2, h3, hk, e3, e2, e1]

/-! ## Traversal bookkeeping -/

/-- Total of the four outcome counters of a `RunResult`. -/
def resSum (r : RunResult) : Nat :=
  r.passed + r.failed + r.pending + r.skipped

theorem runNodesPending_spec (nodes : List TestNode) (s : ExecState) :
    runNodesPending nodes s =
      { s with
        result :=
          { s.result with pending := s.result.pending + leafCounts nodes } } := by
  match nodes with
  | [] => simp [runNodesPending, leafCounts]
  | node :: rest =>
    rw [runNodesPending]
    match node with
    | .describe nm f p l be ae ba aa jbe children =>
      rw [runNodePending, runNodesPending_spec children s,
        runNodesPending_spec rest _]
      simp [leafCounts, leafCount, Nat.add_assoc]
    | .it nm f p l r t m tf =>
      rw [runNodePending, runNodesPending_spec rest _]
      simp [leafCounts, leafCount, Nat.add_assoc]
    | .ordered nm l c st =>
      rw [runNodePending, runNodesPending_spec rest _]
      simp [leafCounts, leafCount, Nat.add_assoc]

theorem firstPanicIn_isSome (as : List Action) :
    (firstPanicIn as).isSome = anyPanics as := by
  induction as with
  | nil => simp [firstPanicIn, anyPanics]
  | cons a rest ih =>
    cases hp : a.panics with
    | none =>
      simp only [firstPanicIn, hp, anyPanics, List.any_cons] at *
      simp [hp, ih]
    | some e => simp [firstPanicIn, hp, anyPanics]

theorem report_outcome_resSum (fp : String) (oc : Option String)
    (r : RunResult) : resSum (report_outcome fp oc r) = resSum r + 1 := by
  cases oc <;> simp [report_outcome, resSum] <;> omega

theorem report_outcome_failures (fp : String) (oc : Option String)
    (r : RunResult) :
    (report_outcome fp oc r).failures.length + r.failed =
      (report_outcome fp oc r).failed + r.failures.length := by
  cases oc <;> simp [report_outcome] <;> omega

theorem invokeSeq_pair (as : List Action) (s : ExecState)
    (p : Option String) (s' : ExecState) (h : invokeSeq as s = (p, s')) :
    p = firstPanicIn as ∧ s'.result = s.result := by
  constructor
  · have h' := invokeSeq_fst as s; rw [h] at h'; exact h'
  · have h' := invokeSeq_result as s; rw [h] at h'; exact h'

mutual

theorem runNode_master (cfg : RunConfig) (hf : cfg.failOnFocus = false)
    (fm : Bool) (node : TestNode) (path : List String) (chain : HookChain)
    (force : Bool) (s : ExecState) :
    (runNode cfg fm node path chain force s).1 = none ∧
    resSum (runNode cfg fm node path chain force s).2.result =
      resSum s.result + encNode cfg fm node path chain.labels force +
        hookFailNode node ∧
    (runNode cfg fm node path chain force s).2.result.failures.length +
        s.result.failed =
      (runNode cfg fm node path chain force s).2.result.failed +
        s.result.failures.length := by
  match node with
  | .describe nm focused pending labels be ae ba aa jbe children =>
    rw [runNode, encNode, hookFailNode]
    cases pending with
    | true =>
      simp only [if_true]
      rw [runNodesPending_spec]
      simp [resSum]; omega
    | false =>
      simp only [Bool.false_eq_true, if_false]
      rcases hba : invokeSeq ba s with ⟨baP, s1⟩
      have e1 : s1.result = s.result := by
        have h := invokeSeq_result ba s; rw [hba] at h; exact h
      have hfst : baP = firstPanicIn ba := by
        have h := invokeSeq_fst ba s; rw [hba] at h; exact h
      simp only [hba]
      cases hbaP : baP with
      | some e =>
        have hany : anyPanics ba = true := by
          rw [← firstPanicIn_isSome, ← hfst, hbaP]; rfl
        rcases haa : invokeSeq aa
            { s1 with
              result :=
                { s1.result with
                  failed := s1.result.failed + 1
                  failures := s1.result.failures ++
                    [joinPath (path ++ [nm]) ++ " (before_all): " ++ e] } }
          with ⟨aaP, s3⟩
        obtain ⟨hfsta, e3⟩ := invokeSeq_pair _ _ _ _ haa
        simp only [hbaP, haa, hany, if_true]
        cases haaP : aaP with
        | some e2 =>
          have hanya : anyPanics aa = true := by
            rw [← firstPanicIn_isSome, ← hfsta, haaP]; rfl
          simp [hanya, resSum, e3, e1]; omega
        | none =>
          have hanya : anyPanics aa = false := by
            rw [← firstPanicIn_isSome, ← hfsta, haaP]; rfl
          simp [hanya, resSum, e3, e1]; omega
      | none =>
        have hany : anyPanics ba = false := by
          rw [← firstPanicIn_isSome, ← hfst, hbaP]; rfl
        have IH := runNodes_master cfg hf fm children (path ++ [nm])
          (chain.withDescribe (.describe nm focused false labels be ae ba aa jbe children))
          (force || focused) s1
        rcases hch : runNodes cfg fm children (path ++ [nm])
            (chain.withDescribe (.describe nm focused false labels be ae ba aa jbe children))
            (force || focused) s1 with ⟨chP, s2⟩
        rw [hch] at IH
        simp only [HookChain.withDescribe] at IH
        obtain ⟨hchP, hsum, hlen⟩ := IH
        have hchPn : chP = none := hchP
        simp only [hbaP, hch, hchPn, hany, Bool.false_eq_true, if_false]
        rcases haa : invokeSeq aa s2 with ⟨aaP, s3⟩
        have e3 : s3.result = s2.result := by
          have h := invokeSeq_result aa s2; rw [haa] at h; exact h
        have hfsta : aaP = firstPanicIn aa := by
          have h := invokeSeq_fst aa s2; rw [haa] at h; exact h
        simp only [haa]
        cases haaP : aaP with
        | some e2 =>
          have hanya : anyPanics aa = true := by
            rw [← firstPanicIn_isSome, ← hfsta, haaP]; rfl
          simp only [hanya, if_true]
          simp [resSum, e3, e1] at *
          omega
        | none =>
          have hanya : anyPanics aa = false := by
            rw [← firstPanicIn_isSome, ← hfsta, haaP]; rfl
          simp only [hanya, Bool.false_eq_true, if_false]
          simp [resSum, e3, e1] at *
          omega
  | .it nm focused pending labels r t m tf =>
    rw [runNode, encNode, hookFailNode]
    by_cases h1 : passesPathFilter cfg (joinPath (path ++ [nm]))
    case neg => simp [h1]; omega
    case pos =>
      simp only [h1, Bool.not_true, Bool.false_eq_true, if_false]
      cases pending with
      | true => simp [resSum]; omega
      | false =>
        simp only [Bool.false_eq_true, if_false]
        by_cases h3 : (fm && !(focused || force) && !cfg.includeIgnored) = true
        case pos =>
          simp only [h3, if_true]
          simp [resSum]; omega
        case neg =>
          simp only [if_neg h3]
          simp only [check_fail_on_focus, hf, Bool.false_eq_true, if_false,
            ite_self]
          by_cases h4 : (!check_labels (chain.labels ++ labels) cfg) = true
          case pos =>
            simp only [h4, if_true]
            simp; omega
          case neg =>
            simp only [if_neg h4]
            rcases hcb : composedBody r t m chain tf s with ⟨outcome, s1⟩
            have e1 : s1.result = s.result := by
              have h := composedBody_result r t m chain tf s
              rw [hcb] at h; exact h
            simp only [hcb, take_skip_reason]
            cases outcome with
            | none =>
              cases hsr : s1.skipReason with
              | some reason => simp [hsr, resSum, e1]; omega
              | none => simp [hsr, resSum, report_outcome, e1]; omega
            | some msg => simp [resSum, report_outcome, e1]; omega
  | .ordered nm labels cof steps =>
    rw [runNode, encNode, hookFailNode]
    by_cases h1 : passesPathFilter cfg (joinPath (path ++ [nm]))
    case neg => simp [h1]; omega
    case pos =>
      simp only [h1, Bool.not_true, Bool.false_eq_true, if_false]
      by_cases h3 : (fm && !force && !cfg.includeIgnored) = true
      case pos =>
        simp only [h3, if_true]
        simp [resSum]; omega
      case neg =>
        simp only [if_neg h3]
        simp only [check_fail_on_focus, hf, Bool.false_eq_true, if_false,
          ite_self]
        by_cases h4 : (!check_labels (chain.labels ++ labels) cfg) = true
        case pos =>
          simp only [h4, if_true]
          simp; omega
        case neg =>
          simp only [if_neg h4]
          rcases hoi : orderedInner chain steps cof s with ⟨bodyP, s1⟩
          have e1 : s1.result = s.result := by
            have h := orderedInner_result chain steps cof s
            rw [hoi] at h; exact h
          rcases hht : hookTail bodyP chain s1 with ⟨outcome, s2⟩
          have e2 : s2.result = s1.result := by
            have h := hookTail_result bodyP chain s1
            rw [hht] at h; exact h
          simp only [hoi, hht]
          cases outcome with
          | none => simp [resSum, report_outcome, e2, e1]; omega
          | some msg => simp [resSum, report_outcome, e2, e1]; omega

theorem runNodes_master (cfg : RunConfig) (hf : cfg.failOnFocus = false)
    (fm : Bool) (nodes : List TestNode) (path : List String)
    (chain : HookChain) (force : Bool) (s : ExecState) :
    (runNodes cfg fm nodes path chain force s).1 = none ∧
    resSum (runNodes cfg fm nodes path chain force s).2.result =
      resSum s.result + encNodes cfg fm nodes path chain.labels force +
        hookFailNodes nodes ∧
    (runNodes cfg fm nodes path chain force s).2.result.failures.length +
        s.result.failed =
      (runNodes cfg fm nodes path chain force s).2.result.failed +
        s.result.failures.length := by
  match nodes with
  | [] => simp [runNodes, encNodes, hookFailNodes]; omega
  | node :: rest =>
    rw [runNodes, encNodes, hookFailNodes]
    have IH1 := runNode_master cfg hf fm node path chain force s
    rcases hrn : runNode cfg fm node path chain force s with ⟨p, s1⟩
    rw [hrn] at IH1
    obtain ⟨hp, hsum1, hlen1⟩ := IH1
    simp only at hp
    subst hp
    simp only [hrn]
    have IH2 := runNodes_master cfg hf fm rest path chain force s1
    rcases hrns : runNodes cfg fm rest path chain force s1 with ⟨q, s2⟩
    rw [hrns] at IH2
    obtain ⟨hq, hsum2, hlen2⟩ := IH2
    simp only at hq hsum1 hlen1 hsum2 hlen2
    subst hq
    simp only [hrns]
    refine ⟨by trivial, ?_, ?_⟩ <;> omega

end
/-! ## C6: the label-filter evaluator against the spec's description -/

/-- The positive (non-negated) terms of a term list — from the claim's
description of the filter grammar. -/
def posOf (ts : List String) : List String :=
  ts.filterMap fun t =>
    match stripBang t with
    | some _ => none
    | none => some t

/-- The negated terms of a term list, with the `!` stripped. -/
def negOf (ts : List String) : List String :=
  ts.filterMap stripBang

/-- The claim's description of an AND filter: every positive term is among
the labels and no negated term is. -/
def specAndMatch (labels ts : List String) : Bool :=
  (posOf ts).all (fun t => labels.contains t) &&
    (negOf ts).all (fun n => !labels.contains n)

/-- The claim's description of an OR filter: if any negated term's label is
present the result is false; otherwise true iff there are no positive terms
or at least one positive term's label is present. -/
def specOrMatch (labels ts : List String) : Bool :=
  if (negOf ts).any (fun n => labels.contains n) then false
  else (posOf ts).isEmpty || (posOf ts).any (fun t => labels.contains t)

theorem andTerms_eq (labels : List String) (ts : List String) :
    (ts.all fun t =>
      match stripBang (trimStr t) with
      | some negated => !(labels.contains negated)
      | none => labels.contains (trimStr t)) =
    specAndMatch labels (ts.map fun t => trimStr t) := by
  induction ts with
  | nil => simp [specAndMatch, posOf, negOf]
  | cons t rest ih =>
    simp only [List.all_cons, List.map_cons, specAndMatch, posOf, negOf,
      List.filterMap_cons]
    cases hs : stripBang (trimStr t) with
    | some n =>
      simp only [hs]
      rw [ih]
      simp only [specAndMatch, posOf, negOf, List.all_cons]
      simp [Bool.and_assoc, Bool.and_comm, Bool.and_left_comm]
    | none =>
      simp only [hs]
      rw [ih]
      simp only [specAndMatch, posOf, negOf, List.all_cons]
      simp [Bool.and_assoc, Bool.and_comm, Bool.and_left_comm]

theorem orLoop_eq (labels : List String) (ts : List String)
    (hp pm : Bool) :
    orTermLoop labels ts hp pm =
      (if (negOf (ts.map fun t => trimStr t)).any
          (fun n => labels.contains n) then
        false
      else
        (!(hp || !(posOf (ts.map fun t => trimStr t)).isEmpty) ||
          (pm || (posOf (ts.map fun t => trimStr t)).any
            fun t => labels.contains t))) := by
  induction ts generalizing hp pm with
  | nil => simp [orTermLoop, negOf, posOf]
  | cons t rest ih =>
    simp only [orTermLoop]
    cases hs : stripBang (trimStr t) with
    | some n =>
      simp only [hs]
      by_cases hc : labels.contains n = true
      · have hc' : n ∈ labels := by simpa using hc
        simp [hs, hc', negOf, posOf, List.filterMap_cons]
      · have hc' : n ∉ labels := by simpa using hc
        simp only [hc, Bool.false_eq_true, if_false]
        rw [ih]
        simp [negOf, posOf, List.filterMap_cons, hs, hc']
    | none =>
      simp only [hs]
      rw [ih]
      simp [negOf, posOf, List.filterMap_cons, hs, Bool.or_assoc,
        Bool.or_comm, Bool.or_left_comm]

/-- C6 main theorem body (see claim list). -/
theorem claim_C6 :
    (∀ (labels : List String) (filter : String),
      (strContainsChar filter '+' = true → strContainsChar filter ',' = true →
        labels_match_filter labels filter = false) ∧
      (strContainsChar filter '+' = true →
        strContainsChar filter ',' = false →
        labels_match_filter labels filter =
          specAndMatch labels ((splitStr filter '+').map fun t => trimStr t)) ∧
      (strContainsChar filter '+' = false →
        labels_match_filter labels filter =
          specOrMatch labels ((splitStr filter ',').map fun t => trimStr t))) ∧
    labels_match_filter ["integration", "fast"] "integration+!slow" = true ∧
    labels_match_filter ["integration", "slow"] "integration+!slow" = false ∧
    labels_match_filter ["fast"] "integration+!slow" = false ∧
    labels_match_filter ["integration"] "integration,!slow" = true ∧
    labels_match_filter ["slow"] "integration,!slow" = false ∧
    labels_match_filter ["integration", "slow"] "integration,!slow" = false ∧
    labels_match_filter ["fast"] "integration,!slow" = false ∧
    labels_match_filter ["a", "b"] "a+b,c" = false := by
  refine ⟨fun labels filter => ⟨?_, ?_, ?_⟩, ?_, ?_, ?_, ?_, ?_, ?_, ?_, ?_⟩
  · intro hplus hcomma
    simp [labels_match_filter, hplus, hcomma]
  · intro hplus hcomma
    simp only [labels_match_filter, hplus, hcomma, Bool.and_false,
      Bool.false_eq_true, if_false, if_true]
    exact andTerms_eq labels (splitStr filter '+')
  · intro hplus
    simp only [labels_match_filter, hplus, Bool.false_and,
      Bool.false_eq_true, if_false]
    rw [orLoop_eq]
    simp [specOrMatch]
  all_goals decide
/-- Witness for C6: the three general clauses applied at concrete inputs. -/
theorem claim_C6_witness :
    labels_match_filter ["a", "b"] "a+b,c" = false ∧
    labels_match_filter ["a", "b"] "a+b" =
      specAndMatch ["a", "b"] ((splitStr "a+b" '+').map fun t => trimStr t) ∧
    labels_match_filter ["a"] "a,!b" =
      specOrMatch ["a"] ((splitStr "a,!b" ',').map fun t => trimStr t) :=
  ⟨(claim_C6.1 ["a", "b"] "a+b,c").1 (by decide) (by decide),
   (claim_C6.1 ["a", "b"] "a+b").2.1 (by decide) (by decide),
   (claim_C6.1 ["a"] "a,!b").2.2 (by decide)⟩

/-! ## C7: retry-until-success -/

theorem retryFrom_success (body : Nat → Option String) :
    ∀ (j a k : Nat), j ≤ k →
      (∀ i, a ≤ i → i < a + j → (body i).isSome) →
      body (a + j) = none →
      retryFrom body a k = (none, a + j) := by
  intro j
  induction j with
  | zero =>
    intro a k _ _ hok
    simp only [Nat.add_zero] at hok
    cases k with
    | zero => simp [retryFrom, hok]
    | succ k' => simp [retryFrom, hok]
  | succ j' ih =>
    intro a k hj hfail hok
    have hk : ∃ k', k = k' + 1 := by
      cases k with
      | zero => omega
      | succ k' => exact ⟨k', rfl⟩
    obtain ⟨k', rfl⟩ := hk
    have hfa : (body a).isSome := hfail a (Nat.le_refl a) (by omega)
    obtain ⟨e, he⟩ : ∃ e, body a = some e := by
      cases h : body a with
      | none => rw [h] at hfa; simp at hfa
      | some e => exact ⟨e, rfl⟩
    rw [retryFrom, he]
    have := ih (a + 1) k' (by omega)
      (fun i h1 h2 => hfail i (by omega) (by omega))
      (by rw [show a + 1 + j' = a + (j' + 1) by omega]; exact hok)
    have heq : a + 1 + j' = a + (j' + 1) := by omega
    rw [this, heq]

theorem retryFrom_allfail (body : Nat → Option String) :
    ∀ (k a : Nat), (∀ i, a ≤ i → i ≤ a + k → (body i).isSome) →
      retryFrom body a k = (body (a + k), a + k) := by
  intro k
  induction k with
  | zero => intro a _; simp [retryFrom]
  | succ k' ih =>
    intro a hfail
    have hfa : (body a).isSome := hfail a (Nat.le_refl a) (by omega)
    obtain ⟨e, he⟩ : ∃ e, body a = some e := by
      cases h : body a with
      | none => rw [h] at hfa; simp at hfa
      | some e => exact ⟨e, rfl⟩
    rw [retryFrom, he]
    have := ih (a + 1) (fun i h1 h2 => hfail i (by omega) (by omega))
    have heq : a + 1 + k' = a + (k' + 1) := by omega
    rw [this, heq]

theorem retryFrom_bound (body : Nat → Option String) :
    ∀ (k a : Nat), (retryFrom body a k).2 ≤ a + k := by
  intro k
  induction k with
  | zero => intro a; simp [retryFrom]
  | succ k' ih =>
    intro a
    rw [retryFrom]
    cases body a with
    | none => simp
    | some e =>
      calc (retryFrom body (a + 1) k').2 ≤ a + 1 + k' := ih (a + 1)
        _ ≤ a + (k' + 1) := by omega

/-- C7: `with_retries(n, body)` invokes the body up to `n + 1` times and
returns on the first success: if the body fails on attempts `1..k`
(`k ≤ n`) and succeeds on attempt `k + 1`, the result is success and the
recorded attempt count is exactly `k + 1`; if all `n + 1` attempts fail,
only the last attempt's failure is propagated. -/
theorem claim_C7 (n : Nat) (body : Nat → Option String) :
    (with_retries n body).2 ≤ n + 1 ∧
    (∀ k, k ≤ n → (∀ i, 1 ≤ i → i ≤ k → (body i).isSome) →
      body (k + 1) = none →
      with_retries n body = (none, k + 1)) ∧
    ((∀ i, 1 ≤ i → i ≤ n + 1 → (body i).isSome) →
      with_retries n body = (body (n + 1), n + 1)) := by
  refine ⟨?_, ?_, ?_⟩
  · have := retryFrom_bound body n 1
    simpa [with_retries, Nat.add_comm] using this
  · intro k hk hfail hok
    have := retryFrom_success body k 1 n hk
      (fun i h1 h2 => hfail i h1 (by omega))
      (by rw [Nat.add_comm]; exact hok)
    simpa [with_retries, Nat.add_comm] using this
  · intro hfail
    have := retryFrom_allfail body n 1
      (fun i h1 h2 => hfail i h1 (by omega))
    simpa [with_retries, Nat.add_comm] using this

/-- Witness for C7: a body failing on attempts 1 and 2 and succeeding on
attempt 3, with two extra retries allowed; and a body that always fails. -/
theorem claim_C7_witness :
    with_retries 5 (fun i => if i ≤ 2 then some "flaky" else none) =
      (none, 3) ∧
    with_retries 2 (fun i => some (toString i)) = (some "3", 3) := by
  constructor
  · exact (claim_C7 5 (fun i => if i ≤ 2 then some "flaky" else none)).2.1 2
      (by omega) (fun i h1 h2 => by simp [h2]) (by norm_num)
  · have := (claim_C7 2 (fun i => some (toString i))).2.2
      (fun i _ _ => rfl)
    simpa using this
/-! ## C8: bounded-time execution -/

theorem pfxAt_self_append (n m : List Char) : pfxAt n (n ++ m) = true := by
  induction n with
  | nil => rfl
  | cons c rest ih => simp [pfxAt, ih]

theorem subAt_append_self (n x y : List Char) :
    subAt n (x ++ n ++ y) = true := by
  induction x with
  | nil =>
    cases n with
    | nil => cases y <;> simp [subAt, pfxAt]
    | cons c rest =>
      simp only [List.nil_append, List.cons_append, subAt]
      have := pfxAt_self_append (c :: rest) y
      simp only [List.cons_append] at this
      simp [this]
  | cons c rest ih =>
    simp only [List.cons_append, subAt]
    have := ih
    simp only [List.append_assoc] at this
    simp [this]

theorem strContainsStr_append (a m b : String) :
    strContainsStr (a ++ m ++ b) m = true := by
  simp only [strContainsStr, String.toList]
  rw [String.data_append, String.data_append]
  exact subAt_append_self m.data a.data b.data

/-- C8: whenever the measured elapsed time exceeds the bound, the bounded
time wrapper reports a timeout failure regardless of the body's own outcome
— a slow success is a timeout failure, not a pass — and when the body also
failed, the timeout message embeds the body's original failure message. -/
theorem claim_C8 (ms elapsed : Nat) (bodyOutcome : Option String)
    (h : elapsed > ms) :
    run_with_timeout ms elapsed bodyOutcome =
      some (timeoutMsg ms bodyOutcome) ∧
    (bodyOutcome = none →
      run_with_timeout ms elapsed bodyOutcome =
        some ("test timed out after " ++ toString ms ++ "ms")) ∧
    (∀ m, bodyOutcome = some m →
      run_with_timeout ms elapsed bodyOutcome =
        some ("test timed out after " ++ toString ms ++
          "ms (original error: " ++ m ++ ")") ∧
      strContainsStr (timeoutMsg ms bodyOutcome) m = true) := by
  refine ⟨by simp [run_with_timeout, h], ?_, ?_⟩
  · intro hb
    subst hb
    simp [run_with_timeout, h, timeoutMsg]
  · intro m hb
    subst hb
    refine ⟨by simp [run_with_timeout, h, timeoutMsg], ?_⟩
    have := strContainsStr_append
      ("test timed out after " ++ toString ms ++ "ms (original error: ") m ")"
    simpa [timeoutMsg, String.append_assoc] using this

/-- Witness for C8: a 10ms run against a 5ms bound, both for a failing and
for a succeeding body. -/
theorem claim_C8_witness :
    run_with_timeout 5 10 (some "boom") =
      some "test timed out after 5ms (original error: boom)" ∧
    run_with_timeout 5 10 none = some "test timed out after 5ms" := by
  constructor
  · have h := ((claim_C8 5 10 (some "boom") (by omega)).2.2 "boom" rfl).1
    simpa using h
  · have h := (claim_C8 5 10 none (by omega)).2.1 rfl
    simpa using h
/-! ## C2: after-all hooks under a panicking sibling -/

theorem firstPanicIn_append_first (pre : List Action) (h : Action)
    (post : List Action) (msg : String)
    (hpre : ∀ a ∈ pre, a.panics = none) (hh : h.panics = some msg) :
    firstPanicIn (pre ++ h :: post) = some msg := by
  induction pre with
  | nil => simp [firstPanicIn, hh]
  | cons a rest ih =>
    have ha : a.panics = none := hpre a (List.mem_cons_self a rest)
    simp only [List.cons_append, firstPanicIn, ha]
    exact ih fun b hb => hpre b (List.mem_cons_of_mem a hb)

theorem takeToPanic_append_first (pre : List Action) (h : Action)
    (post : List Action) (msg : String)
    (hpre : ∀ a ∈ pre, a.panics = none) (hh : h.panics = some msg) :
    takeToPanic (pre ++ h :: post) = pre ++ [h] := by
  induction pre with
  | nil => simp [takeToPanic, hh]
  | cons a rest ih =>
    have ha : a.panics = none := hpre a (List.mem_cons_self a rest)
    simp only [List.cons_append, takeToPanic, ha, Option.isSome_none,
      Bool.false_eq_true, if_false, List.append_eq]
    rw [ih fun b hb => hpre b (List.mem_cons_of_mem a hb)]

/-- C2 counterexample input: a group with no children and two after-all
hooks, the first of which panics, the second of which is a marker. -/
def c2node : TestNode :=
  .describe "g" false false [] [] [] []
    [{ aid := 1, panics := some "boom" }, { aid := 2 }] [] []

/-- C2 counterexample: running `c2node` never invokes the second after-all
hook (the trace records only closure 1) and reports a single after_all
failure entry — refuting both that the after-all hooks listed after a
panicking one still execute and that each hook's failure is reported
independently. -/
theorem claim_C2_counterexample :
    runNodes {} false [c2node] [] {} false {} =
      (none,
        { trace := [Ev.act 1],
          result := { failed := 1, failures := ["g (after_all): boom"] } }) ∧
    ¬ Ev.act 2 ∈ (runNodes {} false [c2node] [] {} false {}).2.trace := by
  constructor
  · decide
  · decide

/-- C2 amended: the `after_all` hooks of a group run inside a single
`catch_unwind`, so when one panics the hooks listed after it do NOT run,
and the group records exactly one after_all failure entry, carrying the
first panicking hook's message.  `s2` is the runner state at group exit
(after `before_all` and the children). -/
theorem claim_C2 (cfg : RunConfig) (hf : cfg.failOnFocus = false) (fm : Bool)
    (nm : String) (focused : Bool) (labels : List String)
    (be ae ba jbe : List Action) (pre : List Action) (h : Action)
    (post : List Action) (msg : String) (children : List TestNode)
    (path : List String) (chain : HookChain) (force : Bool) (s : ExecState)
    (hpre : ∀ a ∈ pre, a.panics = none) (hh : h.panics = some msg) :
    ∃ s2 sFin : ExecState,
      runNode cfg fm
        (.describe nm focused false labels be ae ba (pre ++ h :: post) jbe
          children) path chain force s = (none, sFin) ∧
      sFin.trace = s2.trace ++ (pre ++ [h]).map (fun a => Ev.act a.aid) ∧
      sFin.result.failed = s2.result.failed + 1 ∧
      sFin.result.failures = s2.result.failures ++
        [joinPath (path ++ [nm]) ++ " (after_all): " ++ msg] := by
  rw [runNode]
  simp only [Bool.false_eq_true, if_false]
  rcases hba : invokeSeq ba s with ⟨baP, s1⟩
  cases baP with
  | some e =>
    rcases haa : invokeSeq (pre ++ h :: post)
        { s1 with
          result :=
            { s1.result with
              failed := s1.result.failed + 1
              failures := s1.result.failures ++
                [joinPath (path ++ [nm]) ++ " (before_all): " ++ e] } }
      with ⟨aaP, s3⟩
    obtain ⟨hfsta, e3⟩ := invokeSeq_pair _ _ _ _ haa
    have haaP : aaP = some msg := by
      rw [hfsta, firstPanicIn_append_first pre h post msg hpre hh]
    subst haaP
    have htr := invokeSeq_trace (pre ++ h :: post)
      { s1 with
        result :=
          { s1.result with
            failed := s1.result.failed + 1
            failures := s1.result.failures ++
              [joinPath (path ++ [nm]) ++ " (before_all): " ++ e] } }
    rw [haa, takeToPanic_append_first pre h post msg hpre hh] at htr
    refine ⟨{ s1 with
        result :=
          { s1.result with
            failed := s1.result.failed + 1
            failures := s1.result.failures ++
              [joinPath (path ++ [nm]) ++ " (before_all): " ++ e] } },
      { s3 with
        result :=
          { s3.result with
            failed := s3.result.failed + 1
            failures := s3.result.failures ++
              [joinPath (path ++ [nm]) ++ " (after_all): " ++ msg] } },
      ?_, ?_, ?_, ?_⟩
    · simp [haa]
    · simpa using htr
    · simp [e3]
    · simp [e3]
  | none =>
    have IH := runNodes_master cfg hf fm children (path ++ [nm])
      (chain.withDescribe (.describe nm focused false labels be ae ba
        (pre ++ h :: post) jbe children)) (force || focused) s1
    rcases hch : runNodes cfg fm children (path ++ [nm])
        (chain.withDescribe (.describe nm focused false labels be ae ba
          (pre ++ h :: post) jbe children)) (force || focused) s1
      with ⟨chP, s2⟩
    rw [hch] at IH
    have hchP : chP = none := IH.1
    subst hchP
    rcases haa : invokeSeq (pre ++ h :: post) s2 with ⟨aaP, s3⟩
    obtain ⟨hfsta, e3⟩ := invokeSeq_pair _ _ _ _ haa
    have haaP : aaP = some msg := by
      rw [hfsta, firstPanicIn_append_first pre h post msg hpre hh]
    subst haaP
    have htr := invokeSeq_trace (pre ++ h :: post) s2
    rw [haa, takeToPanic_append_first pre h post msg hpre hh] at htr
    refine ⟨s2,
      { s3 with
        result :=
          { s3.result with
            failed := s3.result.failed + 1
            failures := s3.result.failures ++
              [joinPath (path ++ [nm]) ++ " (after_all): " ++ msg] } },
      ?_, ?_, ?_, ?_⟩
    · simp [hch, haa]
    · simpa using htr
    · simp [e3]
    · simp [e3]

/-- The two after-all hooks of the C2 witness group. -/
def c2hook1 : Action := { aid := 1, panics := some "boom" }

/-- See `c2hook1`. -/
def c2hook2 : Action := { aid := 2 }

/-- Witness for C2 amended: a group with two after-all hooks where the
first panics. -/
theorem claim_C2_witness :
    ∃ s2 sFin : ExecState,
      runNode {} false
        (.describe "g" false false [] [] [] [] ([] ++ c2hook1 :: [c2hook2])
          [] []) [] {} false {} = (none, sFin) ∧
      sFin.trace = s2.trace ++
        (([] : List Action) ++ [c2hook1]).map (fun a => Ev.act a.aid) ∧
      sFin.result.failed = s2.result.failed + 1 ∧
      sFin.result.failures = s2.result.failures ++
        [joinPath ([] ++ ["g"]) ++ " (after_all): " ++ "boom"] :=
  claim_C2 {} rfl false "g" false [] [] [] [] [] [] c2hook1 [c2hook2] "boom"
    [] [] {} false {} (by simp) rfl
/-! ## C4: after-each hooks and failure preference in the composed body -/

theorem firstCPanicIn_none (cs : List Cleanup)
    (h : ∀ c ∈ cs, c.cpanics = none) : firstCPanicIn cs = none := by
  induction cs with
  | nil => rfl
  | cons c rest ih =>
    have hc : c.cpanics = none := h c (List.mem_cons_self c rest)
    simp only [firstCPanicIn, hc]
    exact ih fun d hd => h d (List.mem_cons_of_mem c hd)

theorem takeToPanic_subset (as : List Action) :
    ∀ a ∈ takeToPanic as, a ∈ as := by
  induction as with
  | nil => simp [takeToPanic]
  | cons a rest ih =>
    intro b hb
    simp only [takeToPanic] at hb
    by_cases hp : a.panics.isSome = true
    · rw [if_pos hp] at hb
      simp at hb
      simp [hb]
    · rw [if_neg hp] at hb
      rcases List.mem_cons.mp hb with h1 | h2
      · simp [h1]
      · exact List.mem_cons_of_mem a (ih b h2)

theorem invokeSeq_cleanups_memT (as : List Action) (s : ExecState) :
    ∀ c ∈ (invokeSeq as s).2.cleanups,
      c ∈ s.cleanups ∨ ∃ a ∈ takeToPanic as, c ∈ a.defers := by
  induction as generalizing s with
  | nil => intro c hc; exact Or.inl hc
  | cons a rest ih =>
    intro c hc
    simp only [invokeSeq, invokeAction] at hc
    cases hp : a.panics with
    | some e =>
      rw [hp] at hc
      simp only at hc
      rcases List.mem_append.mp hc with h1 | h2
      · exact Or.inl h1
      · refine Or.inr ⟨a, ?_, h2⟩
        simp [takeToPanic, hp]
    | none =>
      rw [hp] at hc
      simp only at hc
      rcases ih _ c hc with h1 | ⟨b, hb, hcb⟩
      · rcases List.mem_append.mp h1 with h2 | h3
        · exact Or.inl h2
        · refine Or.inr ⟨a, ?_, h3⟩
          simp [takeToPanic, hp]
      · refine Or.inr ⟨b, ?_, hcb⟩
        simp [takeToPanic, hp, List.mem_cons_of_mem a hb]

theorem invokeSeq_cleanups_mem (as : List Action) (s : ExecState) :
    ∀ c ∈ (invokeSeq as s).2.cleanups,
      c ∈ s.cleanups ∨ ∃ a ∈ as, c ∈ a.defers := by
  intro c hc
  rcases invokeSeq_cleanups_memT as s c hc with h1 | ⟨a, ha, hca⟩
  · exact Or.inl h1
  · exact Or.inr ⟨a, takeToPanic_subset as a ha, hca⟩

theorem invokeEachGuarded_cleanups_mem (as : List Action) (s : ExecState) :
    ∀ c ∈ (invokeEachGuarded as s).2.cleanups,
      c ∈ s.cleanups ∨ ∃ a ∈ as, c ∈ a.defers := by
  induction as generalizing s with
  | nil => intro c hc; exact Or.inl hc
  | cons a rest ih =>
    intro c hc
    simp only [invokeEachGuarded, invokeAction] at hc
    rcases ih _ c hc with h1 | ⟨b, hb, hcb⟩
    · rcases List.mem_append.mp h1 with h2 | h3
      · exact Or.inl h2
      · exact Or.inr ⟨a, List.mem_cons_self a rest, h3⟩
    · exact Or.inr ⟨b, List.mem_cons_of_mem a hb, hcb⟩

theorem bodyPhase_cleanups_mem (chain : HookChain) (tf : Action)
    (s : ExecState) :
    ∀ c ∈ (bodyPhase chain tf s).2.cleanups,
      c ∈ s.cleanups ∨
        ∃ a ∈ chain.before_each ++ chain.just_before_each ++ [tf],
          c ∈ a.defers := by
  intro c hc
  simp only [bodyPhase] at hc
  rcases h1 : invokeSeq chain.before_each s with ⟨p1, s1⟩
  rw [h1] at hc
  cases p1 with
  | some e =>
    simp only at hc
    rcases invokeSeq_cleanups_mem chain.before_each s c (by rw [h1]; exact hc)
      with h | ⟨a, ha, hca⟩
    · exact Or.inl h
    · exact Or.inr ⟨a, by simp [ha], hca⟩
  | none =>
    simp only at hc
    rcases h2 : invokeSeq chain.just_before_each s1 with ⟨p2, s2⟩
    rw [h2] at hc
    have hs1 : ∀ d ∈ s1.cleanups,
        d ∈ s.cleanups ∨ ∃ a ∈ chain.before_each, d ∈ a.defers := by
      intro d hd
      exact invokeSeq_cleanups_mem chain.before_each s d (by rw [h1]; exact hd)
    cases p2 with
    | some e =>
      simp only at hc
      rcases invokeSeq_cleanups_mem chain.just_before_each s1 c
          (by rw [h2]; exact hc) with h | ⟨a, ha, hca⟩
      · rcases hs1 c h with h' | ⟨a, ha, hca⟩
        · exact Or.inl h'
        · exact Or.inr ⟨a, by simp [ha], hca⟩
      · exact Or.inr ⟨a, by simp [ha], hca⟩
    | none =>
      simp only [invokeAction] at hc
      rcases List.mem_append.mp hc with h | h
      · rcases invokeSeq_cleanups_mem chain.just_before_each s1 c
            (by rw [h2]; exact h) with h' | ⟨a, ha, hca⟩
        · rcases hs1 c h' with h'' | ⟨a, ha, hca⟩
          · exact Or.inl h''
          · exact Or.inr ⟨a, by simp [ha], hca⟩
        · exact Or.inr ⟨a, by simp [ha], hca⟩
      · exact Or.inr ⟨tf, by simp, h⟩

theorem bodyPhase_trace_exists (chain : HookChain) (tf : Action)
    (s : ExecState) :
    ∃ δ, (bodyPhase chain tf s).2.trace = s.trace ++ δ := by
  rcases h1 : invokeSeq chain.before_each s with ⟨p1, s1⟩
  have t1 : s1.trace = s.trace ++
      (takeToPanic chain.before_each).map (fun a => Ev.act a.aid) := by
    have h := invokeSeq_trace chain.before_each s; rw [h1] at h; exact h
  cases p1 with
  | some e =>
    have hbp : bodyPhase chain tf s = (some e, s1) := by
      simp only [bodyPhase, h1]
    rw [hbp]
    exact ⟨_, t1⟩
  | none =>
    rcases h2 : invokeSeq chain.just_before_each s1 with ⟨p2, s2⟩
    have t2 : s2.trace = s1.trace ++
        (takeToPanic chain.just_before_each).map (fun a => Ev.act a.aid) := by
      have h := invokeSeq_trace chain.just_before_each s1; rw [h2] at h
      exact h
    cases p2 with
    | some e =>
      have hbp : bodyPhase chain tf s = (some e, s2) := by
        simp only [bodyPhase, h1, h2]
      rw [hbp]
      refine ⟨(takeToPanic chain.before_each).map (fun a => Ev.act a.aid) ++
        (takeToPanic chain.just_before_each).map (fun a => Ev.act a.aid), ?_⟩
      rw [t2, t1, List.append_assoc]
    | none =>
      have hbp : bodyPhase chain tf s = invokeAction tf s2 := by
        simp only [bodyPhase, h1, h2]
      rw [hbp]
      refine ⟨(takeToPanic chain.before_each).map (fun a => Ev.act a.aid) ++
        ((takeToPanic chain.just_before_each).map (fun a => Ev.act a.aid) ++
          [Ev.act tf.aid]), ?_⟩
      simp only [invokeAction, t2, t1, List.append_assoc]

/-- C4: once the composed body of a case starts, all inherited after-each
hooks run in innermost-first (reverse-chain) order regardless of panics in
before-each, just-before-each, the body, or earlier after-each hooks; and
(when no registered deferred cleanup panics) the propagated failure is the
body phase's failure if there is one, else the first after-each failure. -/
theorem claim_C4 (chain : HookChain) (tf : Action) (s : ExecState)
    (hclean : ∀ c ∈ s.cleanups, c.cpanics = none)
    (hdefers : ∀ a ∈ chain.before_each ++ chain.just_before_each ++ [tf] ++
      chain.after_each, ∀ c ∈ a.defers, c.cpanics = none) :
    (∃ t1 t3, (testBody chain tf s).2.trace =
      s.trace ++ t1 ++
        chain.after_each.reverse.map (fun a => Ev.act a.aid) ++ t3) ∧
    (testBody chain tf s).1 =
      (match (bodyPhase chain tf s).1 with
       | some e => some e
       | none => firstPanicIn chain.after_each.reverse) := by
  simp only [testBody]
  rcases hb : bodyPhase chain tf s with ⟨bodyP, s1⟩
  obtain ⟨δ1, hδ1⟩ : ∃ δ, s1.trace = s.trace ++ δ := by
    obtain ⟨δ, hδ⟩ := bodyPhase_trace_exists chain tf s
    rw [hb] at hδ
    exact ⟨δ, hδ⟩
  have hs1mem : ∀ c ∈ s1.cleanups, c.cpanics = none := by
    intro c hc
    rcases bodyPhase_cleanups_mem chain tf s c (by rw [hb]; exact hc)
      with h | ⟨a, ha, hca⟩
    · exact hclean c h
    · exact hdefers a (by simp at ha ⊢; tauto) c hca
  simp only [hookTail]
  rcases hg : invokeEachGuarded chain.after_each.reverse s1 with ⟨aeP, s2⟩
  have hgf : aeP = firstPanicIn chain.after_each.reverse := by
    have h := invokeEachGuarded_fst chain.after_each.reverse s1
    rw [hg] at h; exact h
  have hgt : s2.trace = s1.trace ++
      chain.after_each.reverse.map (fun a => Ev.act a.aid) := by
    have h := invokeEachGuarded_trace chain.after_each.reverse s1
    rw [hg] at h; exact h
  have hs2mem : ∀ c ∈ s2.cleanups, c.cpanics = none := by
    intro c hc
    rcases invokeEachGuarded_cleanups_mem chain.after_each.reverse s1 c
        (by rw [hg]; exact hc) with h | ⟨a, ha, hca⟩
    · exact hs1mem c h
    · exact hdefers a (by simp at ha ⊢; tauto) c hca
  rcases hc : run_deferred_cleanups s2 with ⟨clP, s3⟩
  have hclP : clP = none := by
    have h : (run_deferred_cleanups s2).1 = firstCPanicIn s2.cleanups.reverse := by
      simp only [run_deferred_cleanups]
      exact runCleanupList_fst _ _
    rw [hc] at h
    simp only at h
    rw [h]
    exact firstCPanicIn_none _ fun c hcm =>
      hs2mem c (List.mem_reverse.mp hcm)
  have hct : s3.trace = s2.trace ++
      s2.cleanups.reverse.map (fun c => Ev.clean c.cid) := by
    have h := runCleanupList_trace s2.cleanups.reverse
      { s2 with cleanups := [] }
    simp only [run_deferred_cleanups] at hc
    rw [hc] at h
    exact h
  subst hclP
  constructor
  · refine ⟨δ1, s2.cleanups.reverse.map (fun c => Ev.clean c.cid), ?_⟩
    simp only [hct, hgt, hδ1, List.append_assoc]
  · simp [hgf]

/-- Witness for C4: a failing body with two after-each hooks of which the
innermost panics; the body's message is preferred and both hooks run. -/
theorem claim_C4_witness :
    (∃ t1 t3,
      (testBody
        { after_each := [{ aid := 10 }, { aid := 11, panics := some "ae" }] }
        { aid := 1, panics := some "body" } {}).2.trace =
      ([] : List Ev) ++ t1 ++
        ([{ aid := 10 }, { aid := 11, panics := some "ae" }] :
          List Action).reverse.map (fun a => Ev.act a.aid) ++ t3) ∧
    (testBody
      { after_each := [{ aid := 10 }, { aid := 11, panics := some "ae" }] }
      { aid := 1, panics := some "body" } {}).1 =
      (match (bodyPhase
        { after_each := [{ aid := 10 }, { aid := 11, panics := some "ae" }] }
        { aid := 1, panics := some "body" } {}).1 with
       | some e => some e
       | none => firstPanicIn ([{ aid := 10 },
          { aid := 11, panics := some "ae" }] : List Action).reverse) :=
  claim_C4
    { after_each := [{ aid := 10 }, { aid := 11, panics := some "ae" }] }
    { aid := 1, panics := some "body" } {} (by simp) (by decide)
/-! ## C9: ordered sequences -/

theorem invokeSeq_cleanups_nil (as : List Action) (s : ExecState)
    (h : ∀ a ∈ as, a.defers = []) (hs : s.cleanups = []) :
    (invokeSeq as s).2.cleanups = [] := by
  rw [List.eq_nil_iff_forall_not_mem]
  intro c hc
  rcases invokeSeq_cleanups_mem as s c hc with h1 | ⟨a, ha, hca⟩
  · rw [hs] at h1; simp at h1
  · rw [h a ha] at hca; simp at hca

theorem collectSteps_fst (steps : List OrderedStep) (s : ExecState) :
    (collectSteps steps s).1 =
      steps.countP (fun st => st.body.panics.isSome) := by
  induction steps generalizing s with
  | nil => simp [collectSteps]
  | cons st rest ih =>
    simp only [collectSteps, invokeAction, List.countP_cons]
    rw [ih]
    exact Nat.add_comm _ _

theorem collectSteps_trace (steps : List OrderedStep) (s : ExecState) :
    (collectSteps steps s).2.trace =
      s.trace ++ steps.map (fun st => Ev.act st.body.aid) := by
  induction steps generalizing s with
  | nil => simp [collectSteps]
  | cons st rest ih => simp [collectSteps, invokeAction, ih]

theorem collectSteps_cleanups_nil (steps : List OrderedStep) :
    ∀ (s : ExecState), (∀ st ∈ steps, st.body.defers = []) →
      s.cleanups = [] → (collectSteps steps s).2.cleanups = [] := by
  induction steps with
  | nil => intro s _ hs; simpa [collectSteps] using hs
  | cons st rest ih =>
    intro s h hs
    simp only [collectSteps, invokeAction]
    exact ih _ (fun a ha => h a (List.mem_cons_of_mem st ha))
      (by simp [hs, h st (List.mem_cons_self st rest)])

theorem hookTail_empty (bodyP : Option String) (chain : HookChain)
    (hae : chain.after_each = []) (s1 : ExecState)
    (hc : s1.cleanups = []) : hookTail bodyP chain s1 = (bodyP, s1) := by
  simp only [hookTail, hae, List.reverse_nil, invokeEachGuarded,
    run_deferred_cleanups, hc, runCleanupList]
  cases s1 with
  | mk sr cl now tr res =>
    simp only at hc
    subst hc
    cases bodyP <;> rfl

/-- C9: steps of an `OrderedSequence` execute in declaration order.  With
`continue_on_failure` false the first step panic aborts the remaining steps
and becomes the sequence's single reported failure; with it true every step
runs, and when `k > 0` of the `M` steps fail the sequence fails once with
the summary message `"k of M ordered steps failed"`.  Hypotheses pin the
leaf to a clean environment: no inherited each-hooks, empty cleanup stack,
no step-registered cleanups, focus mode off, and path/label filters
passing. -/
theorem claim_C9 :
    (∀ (cfg : RunConfig) (nm : String) (labels : List String)
      (pre : List OrderedStep) (bad : OrderedStep) (post : List OrderedStep)
      (msg : String) (path : List String) (chain : HookChain) (force : Bool)
      (s : ExecState),
      chain.before_each = [] → chain.just_before_each = [] →
      chain.after_each = [] → s.cleanups = [] →
      passesPathFilter cfg (joinPath (path ++ [nm])) = true →
      check_labels (chain.labels ++ labels) cfg = true →
      (∀ st ∈ pre, st.body.panics = none) →
      (∀ st ∈ pre, st.body.defers = []) → bad.body.defers = [] →
      bad.body.panics = some msg →
      ∃ sFin : ExecState,
        runNode cfg false (.ordered nm labels false (pre ++ bad :: post))
          path chain force s = (none, sFin) ∧
        sFin.trace = s.trace ++
          (pre ++ [bad]).map (fun st => Ev.act st.body.aid) ∧
        sFin.result =
          { s.result with
            failed := s.result.failed + 1
            failures := s.result.failures ++
              [joinPath (path ++ [nm]) ++ ": " ++ msg] }) ∧
    (∀ (cfg : RunConfig) (nm : String) (labels : List String)
      (steps : List OrderedStep) (path : List String) (chain : HookChain)
      (force : Bool) (s : ExecState),
      chain.before_each = [] → chain.just_before_each = [] →
      chain.after_each = [] → s.cleanups = [] →
      passesPathFilter cfg (joinPath (path ++ [nm])) = true →
      check_labels (chain.labels ++ labels) cfg = true →
      (∀ st ∈ steps, st.body.defers = []) →
      ∃ sFin : ExecState,
        runNode cfg false (.ordered nm labels true steps)
          path chain force s = (none, sFin) ∧
        sFin.trace = s.trace ++ steps.map (fun st => Ev.act st.body.aid) ∧
        (steps.countP (fun st => st.body.panics.isSome) = 0 →
          sFin.result = { s.result with passed := s.result.passed + 1 }) ∧
        (∀ k, steps.countP (fun st => st.body.panics.isSome) = k → 0 < k →
          sFin.result =
            { s.result with
              failed := s.result.failed + 1
              failures := s.result.failures ++
                [joinPath (path ++ [nm]) ++ ": " ++ toString k ++ " of " ++
                  toString steps.length ++ " ordered steps failed"] })) := by
  constructor
  · intro cfg nm labels pre bad post msg path chain force s hbe hjbe hae hcl
      hpf hlb hpreok hpredef hbaddef hbad
    rw [runNode]
    simp only [hpf, Bool.not_true, Bool.false_eq_true, if_false,
      Bool.false_and, Bool.and_false, hlb, if_true]
    rcases hoi : orderedInner chain (pre ++ bad :: post) false s
      with ⟨bodyP, s1⟩
    have hoi2 : orderedInner chain (pre ++ bad :: post) false s =
        invokeSeq ((pre ++ bad :: post).map (fun st => st.body)) s := by
      simp only [orderedInner, hbe, hjbe, invokeSeq, Bool.false_eq_true,
        if_false]
    rw [hoi2] at hoi
    obtain ⟨hfst, eres⟩ := invokeSeq_pair _ _ _ _ hoi
    have hbodyP : bodyP = some msg := by
      rw [hfst]
      have : (pre ++ bad :: post).map (fun st => st.body) =
          pre.map (fun st => st.body) ++ bad.body ::
            post.map (fun st => st.body) := by simp
      rw [this, firstPanicIn_append_first _ _ _ msg
        (by intro a ha; obtain ⟨st, hst, rfl⟩ := List.mem_map.mp ha
            exact hpreok st hst) hbad]
    subst hbodyP
    have htr : s1.trace = s.trace ++
        (pre ++ [bad]).map (fun st => Ev.act st.body.aid) := by
      have h := invokeSeq_trace ((pre ++ bad :: post).map fun st => st.body) s
      rw [hoi] at h
      have hshape : (pre ++ bad :: post).map (fun st => st.body) =
          pre.map (fun st => st.body) ++ bad.body ::
            post.map (fun st => st.body) := by simp
      rw [hshape, takeToPanic_append_first _ _ _ msg
        (by intro a ha; obtain ⟨st, hst, rfl⟩ := List.mem_map.mp ha
            exact hpreok st hst) hbad] at h
      simpa [Function.comp] using h
    have hshape : (pre ++ bad :: post).map (fun st => st.body) =
        pre.map (fun st => st.body) ++ bad.body ::
          post.map (fun st => st.body) := by simp
    have hclean1 : s1.cleanups = [] := by
      rw [List.eq_nil_iff_forall_not_mem]
      intro c hc
      rcases invokeSeq_cleanups_memT
          ((pre ++ bad :: post).map fun st => st.body) s c
          (by rw [hoi]; exact hc) with h1 | ⟨a, ha, hca⟩
      · rw [hcl] at h1; simp at h1
      · rw [hshape, takeToPanic_append_first _ _ _ msg
          (by intro a' ha'; obtain ⟨st, hst, rfl⟩ := List.mem_map.mp ha'
              exact hpreok st hst) hbad] at ha
        rcases List.mem_append.mp ha with h2 | h3
        · obtain ⟨st, hst, rfl⟩ := List.mem_map.mp h2
          rw [hpredef st hst] at hca
          simp at hca
        · simp only [List.mem_singleton] at h3
          rw [h3, hbaddef] at hca
          simp at hca
    rw [hookTail_empty _ chain hae s1 hclean1]
    refine ⟨_, rfl, htr, ?_⟩
    simp [report_outcome, eres]
  · intro cfg nm labels steps path chain force s hbe hjbe hae hcl hpf hlb
      hdef
    rw [runNode]
    simp only [hpf, Bool.not_true, Bool.false_eq_true, if_false,
      Bool.false_and, Bool.and_false, hlb, if_true]
    rcases hcs : collectSteps steps s with ⟨k, s1⟩
    have hk : k = steps.countP (fun st => st.body.panics.isSome) := by
      have h := collectSteps_fst steps s; rw [hcs] at h; exact h
    have htr : s1.trace = s.trace ++
        steps.map (fun st => Ev.act st.body.aid) := by
      have h := collectSteps_trace steps s; rw [hcs] at h; exact h
    have eres : s1.result = s.result := by
      have h := collectSteps_result steps s; rw [hcs] at h; exact h
    have hclean1 : s1.cleanups = [] := by
      have h := collectSteps_cleanups_nil steps s hdef hcl
      rw [hcs] at h; exact h
    have hoi2 : orderedInner chain steps true s =
        (if k > 0 then
          (some (toString k ++ " of " ++ toString steps.length ++
            " ordered steps failed"), s1)
        else (none, s1)) := by
      simp only [orderedInner, hbe, hjbe, invokeSeq, if_true, hcs]
    by_cases hk0 : k > 0
    · rw [hoi2]
      simp only [hk0, if_true]
      rw [hookTail_empty _ chain hae s1 hclean1]
      refine ⟨_, rfl, htr, ?_, ?_⟩
      · intro hz; omega
      · intro k' hk' hk'0
        have hkk : k = k' := hk.trans hk'
        subst hkk
        simp [report_outcome, eres, String.append_assoc]
    · rw [hoi2]
      simp only [hk0, if_false]
      rw [hookTail_empty _ chain hae s1 hclean1]
      refine ⟨_, rfl, htr, ?_, ?_⟩
      · intro _; simp [report_outcome, eres]
      · intro k' hk' hk'0; omega
/-- The failing first step of the C9 witness sequence. -/
def c9bad : OrderedStep := ⟨"s1", { aid := 1, panics := some "bad" }⟩

/-- The second step of the C9 witness sequence. -/
def c9ok : OrderedStep := ⟨"s2", { aid := 2 }⟩

/-- Witness for C9: a two-step sequence whose first step fails, run in both
continue-on-failure modes. -/
theorem claim_C9_witness :
    (∃ sFin : ExecState,
      runNode {} false (.ordered "o" [] false ([] ++ c9bad :: [c9ok]))
        [] {} false {} = (none, sFin) ∧
      sFin.trace = ({} : ExecState).trace ++
        (([] : List OrderedStep) ++ [c9bad]).map
          (fun st => Ev.act st.body.aid) ∧
      sFin.result =
        { ({} : ExecState).result with
          failed := ({} : ExecState).result.failed + 1
          failures := ({} : ExecState).result.failures ++
            [joinPath ([] ++ ["o"]) ++ ": " ++ "bad"] }) ∧
    (∃ sFin : ExecState,
      runNode {} false (.ordered "o" [] true [c9bad, c9ok])
        [] {} false {} = (none, sFin) ∧
      sFin.trace = ({} : ExecState).trace ++
        ([c9bad, c9ok].map fun st => Ev.act st.body.aid) ∧
      (([c9bad, c9ok].countP fun st => st.body.panics.isSome) = 0 →
        sFin.result =
          { ({} : ExecState).result with
            passed := ({} : ExecState).result.passed + 1 }) ∧
      (∀ k, ([c9bad, c9ok].countP fun st => st.body.panics.isSome) = k →
        0 < k →
        sFin.result =
          { ({} : ExecState).result with
            failed := ({} : ExecState).result.failed + 1
            failures := ({} : ExecState).result.failures ++
              [joinPath ([] ++ ["o"]) ++ ": " ++ toString k ++ " of " ++
                toString ([c9bad, c9ok] : List OrderedStep).length ++
                " ordered steps failed"] })) :=
  ⟨claim_C9.1 {} "o" [] [] c9bad [c9ok] "bad" [] {} false {}
      rfl rfl rfl rfl (by decide) rfl (by simp) (by simp) rfl rfl,
    claim_C9.2 {} "o" [] [c9bad, c9ok] [] {} false {}
      rfl rfl rfl rfl (by decide) rfl
      (by intro st hst
          rcases List.mem_cons.mp hst with h1 | h2
          · rw [h1]; rfl
          · simp only [List.mem_singleton] at h2; rw [h2]; rfl)⟩
/-! ## C5: focus mode -/

/-- A node's own focused flag — from the claim's wording: Groups and Cases
carry the flag, OrderedSequence nodes never contribute focus. -/
def nodeFocusedFlag : TestNode → Bool
  | .describe _ focused _ _ _ _ _ _ _ _ => focused
  | .it _ focused _ _ _ _ _ _ => focused
  | .ordered _ _ _ _ => false

mutual

/-- A node together with all nodes below it (Groups recurse). -/
def selfOrDesc : TestNode → List TestNode
  | n@(.describe _ _ _ _ _ _ _ _ _ children) => n :: selfOrDescL children
  | n@(.it _ _ _ _ _ _ _ _) => [n]
  | n@(.ordered _ _ _ _) => [n]

/-- All nodes in or below a forest. -/
def selfOrDescL : List TestNode → List TestNode
  | [] => []
  | n :: rest => selfOrDesc n ++ selfOrDescL rest

end

theorem treeHasFocus_iff (nodes : List TestNode) :
    treeHasFocus nodes = true ↔
      ∃ n ∈ selfOrDescL nodes, nodeFocusedFlag n = true := by
  match nodes with
  | [] => simp [treeHasFocus, selfOrDescL]
  | node :: rest =>
    rw [treeHasFocus]
    match node with
    | .describe nm f p l be ae ba aa jbe children =>
      simp only [nodeHasFocus, Bool.or_eq_true, treeHasFocus_iff children,
        treeHasFocus_iff rest, selfOrDescL, selfOrDesc, nodeFocusedFlag,
        List.mem_append, List.mem_cons]
      constructor
      · rintro ((hf | ⟨n, hn, hfn⟩) | ⟨n, hn, hfn⟩)
        · exact ⟨_, Or.inl (Or.inl rfl), hf⟩
        · exact ⟨n, Or.inl (Or.inr hn), hfn⟩
        · exact ⟨n, Or.inr hn, hfn⟩
      · rintro ⟨n, (hn | hn) | hn, hfn⟩
        · subst hn; exact Or.inl (Or.inl hfn)
        · exact Or.inl (Or.inr ⟨n, hn, hfn⟩)
        · exact Or.inr ⟨n, hn, hfn⟩
    | .it nm f p l r t m tf =>
      simp only [nodeHasFocus, Bool.or_eq_true, treeHasFocus_iff rest,
        selfOrDescL, selfOrDesc, nodeFocusedFlag, List.mem_append,
        List.mem_cons, List.mem_singleton]
      constructor
      · rintro (hf | ⟨n, hn, hfn⟩)
        · exact ⟨_, Or.inl (Or.inl rfl), hf⟩
        · exact ⟨n, Or.inr hn, hfn⟩
      · rintro ⟨n, (hn | hn) | hn, hfn⟩
        · subst hn; exact Or.inl hfn
        · exact absurd hn (List.not_mem_nil n)
        · exact Or.inr ⟨n, hn, hfn⟩
    | .ordered nm l c st =>
      simp only [nodeHasFocus, Bool.or_eq_true, treeHasFocus_iff rest,
        selfOrDescL,
        selfOrDesc, nodeFocusedFlag, List.mem_append, List.mem_cons,
        List.mem_singleton, Bool.false_eq_true]
      constructor
      · rintro (hf | ⟨n, hn, hfn⟩)
        · exact absurd hf (by simp)
        · exact ⟨n, Or.inr hn, hfn⟩
      · rintro ⟨n, (hn | hn) | hn, hfn⟩
        · subst hn; simp [nodeFocusedFlag] at hfn
        · exact absurd hn (List.not_mem_nil n)
        · exact Or.inr ⟨n, hn, hfn⟩

/-- C5: (1) the run-wide focus mode computed by `run_suites` is on iff some
Group or Case anywhere in the suites has its focused flag set — Groups
searched recursively, OrderedSequence leaves never contributing; (2) with
focus mode on and include-ignored unset, a non-pending, path-filter-passing
`It` leaf that is neither focused nor inside a focused group is counted as
skipped with nothing executed (the state is untouched except the skip
counter), and (3) likewise for an `Ordered` leaf outside any focused group;
(4) a focused `It` leaf behaves under focus mode exactly as it would with
focus mode off (the fail-on-focus guard being unset). -/
theorem claim_C5 :
    (∀ suites : List Suite,
      (suites.any fun st => treeHasFocus st.nodes) = true ↔
        ∃ st ∈ suites, ∃ n ∈ selfOrDescL st.nodes,
          nodeFocusedFlag n = true) ∧
    (∀ (cfg : RunConfig) (nm : String) (labels : List String)
      (r t m : Option Nat) (tf : Action) (path : List String)
      (chain : HookChain) (s : ExecState),
      cfg.includeIgnored = false →
      passesPathFilter cfg (joinPath (path ++ [nm])) = true →
      runNode cfg true (.it nm false false labels r t m tf) path chain
        false s =
        (none,
          { s with
            result := { s.result with skipped := s.result.skipped + 1 } })) ∧
    (∀ (cfg : RunConfig) (nm : String) (labels : List String) (cof : Bool)
      (steps : List OrderedStep) (path : List String) (chain : HookChain)
      (s : ExecState),
      cfg.includeIgnored = false →
      passesPathFilter cfg (joinPath (path ++ [nm])) = true →
      runNode cfg true (.ordered nm labels cof steps) path chain false s =
        (none,
          { s with
            result := { s.result with skipped := s.result.skipped + 1 } })) ∧
    (∀ (cfg : RunConfig) (nm : String) (pending : Bool)
      (labels : List String) (r t m : Option Nat) (tf : Action)
      (path : List String) (chain : HookChain) (force : Bool)
      (s : ExecState),
      cfg.failOnFocus = false →
      runNode cfg true (.it nm true pending labels r t m tf) path chain
        force s =
      runNode cfg false (.it nm true pending labels r t m tf) path chain
        force s) := by
  refine ⟨?_, ?_, ?_, ?_⟩
  · intro suites
    rw [List.any_eq_true]
    constructor
    · rintro ⟨st, hst, hfoc⟩
      exact ⟨st, hst, (treeHasFocus_iff st.nodes).mp hfoc⟩
    · rintro ⟨st, hst, hw⟩
      exact ⟨st, hst, (treeHasFocus_iff st.nodes).mpr hw⟩
  · intro cfg nm labels r t m tf path chain s hii hpf
    rw [runNode]
    simp [hpf, hii]
  · intro cfg nm labels cof steps path chain s hii hpf
    rw [runNode]
    simp [hpf, hii]
  · intro cfg nm pending labels r t m tf path chain force s hf
    rw [runNode, runNode]
    simp [check_fail_on_focus, hf]

/-- Witness for C5: a non-focused leaf beside a focused one is skipped, an
ordered leaf is skipped, and a focused leaf runs as without focus mode. -/
theorem claim_C5_witness :
    runNode {} true (.it "t" false false [] none none none { aid := 1 })
      [] {} false {} =
      (none,
        { ({} : ExecState) with
          result :=
            { ({} : ExecState).result with
              skipped := ({} : ExecState).result.skipped + 1 } }) ∧
    runNode {} true (.ordered "o" [] false [c9ok]) [] {} false {} =
      (none,
        { ({} : ExecState) with
          result :=
            { ({} : ExecState).result with
              skipped := ({} : ExecState).result.skipped + 1 } }) ∧
    runNode {} true (.it "f" true false [] none none none { aid := 2 })
      [] {} false {} =
    runNode {} false (.it "f" true false [] none none none { aid := 2 })
      [] {} false {} :=
  ⟨claim_C5.2.1 {} "t" [] none none none { aid := 1 } [] {} {} rfl
      (by decide),
    claim_C5.2.2.1 {} "o" [] false [c9ok] [] {} {} rfl (by decide),
    claim_C5.2.2.2 {} "f" false [] none none none { aid := 2 } [] {} false
      {} rfl⟩
/-! ## C1 and C10: outcome accounting over whole runs; C3: the skip flag -/

/-- Leaves encountered and counted across a list of suites. -/
def suitesEnc (cfg : RunConfig) (fm : Bool) : List Suite → Nat
  | [] => 0
  | st :: rest => encNodes cfg fm st.nodes [] [] false + suitesEnc cfg fm rest

/-- Group-hook failure entries across a list of suites. -/
def suitesHookFails : List Suite → Nat
  | [] => 0
  | st :: rest => hookFailNodes st.nodes + suitesHookFails rest

theorem runSuitesFrom_master (cfg : RunConfig) (hf : cfg.failOnFocus = false)
    (fm : Bool) :
    ∀ (suites : List Suite) (s : ExecState),
      (runSuitesFrom cfg fm suites s).1 = none ∧
      resSum (runSuitesFrom cfg fm suites s).2.result =
        resSum s.result + suitesEnc cfg fm suites + suitesHookFails suites ∧
      (runSuitesFrom cfg fm suites s).2.result.failures.length +
          s.result.failed =
        (runSuitesFrom cfg fm suites s).2.result.failed +
          s.result.failures.length := by
  intro suites
  induction suites with
  | nil => intro s; simp [runSuitesFrom, suitesEnc, suitesHookFails]; omega
  | cons st rest ih =>
    intro s
    rw [runSuitesFrom, suitesEnc, suitesHookFails]
    have IH1 := runNodes_master cfg hf fm st.nodes [] {} false s
    rcases hrn : runNodes cfg fm st.nodes [] {} false s with ⟨p, s1⟩
    rw [hrn] at IH1
    obtain ⟨hp, hsum1, hlen1⟩ := IH1
    have hpn : p = none := hp
    subst hpn
    simp only [hrn]
    have IH2 := ih s1
    rcases hrns : runSuitesFrom cfg fm rest s1 with ⟨q, s2⟩
    rw [hrns] at IH2
    obtain ⟨hq, hsum2, hlen2⟩ := IH2
    have hqn : q = none := hq
    subst hqn
    have hsum1' : resSum s1.result = resSum s.result +
        encNodes cfg fm st.nodes [] [] false + hookFailNodes st.nodes :=
      hsum1
    have hlen1' : s1.result.failures.length + s.result.failed =
        s1.result.failed + s.result.failures.length := hlen1
    have hsum2' : resSum s2.result = resSum s1.result +
        suitesEnc cfg fm rest + suitesHookFails rest := hsum2
    have hlen2' : s2.result.failures.length + s1.result.failed =
        s2.result.failed + s1.result.failures.length := hlen2
    simp only [hrns]
    refine ⟨by trivial, ?_, ?_⟩
    · show resSum s2.result = resSum s.result +
        (encNodes cfg fm st.nodes [] [] false + suitesEnc cfg fm rest) +
        (hookFailNodes st.nodes + suitesHookFails rest)
      omega
    · show s2.result.failures.length + s.result.failed =
        s2.result.failed + s.result.failures.length
      omega

/-- C1 amended: after a completed (non-list-mode) run, the sum
`passed + failed + pending + skipped` equals the number of Case and
OrderedSequence leaves encountered and counted by the traversal (leaves cut
off by the path or label filter contribute nothing; leaves under a pending
group are all counted) PLUS the number of group-hook (`before_all` /
`after_all`) failure entries — each panicking group hook loop adds one
`failed` with no corresponding leaf. -/
theorem claim_C1 (cfg : RunConfig) (suites : List Suite) (amb : ExecState)
    (hlist : cfg.list = false) (hf : cfg.failOnFocus = false) :
    (run_suites cfg suites amb).1 = none ∧
    resSum (run_suites cfg suites amb).2.result =
      suitesEnc cfg (suites.any fun st => treeHasFocus st.nodes) suites +
        suitesHookFails suites := by
  have h := runSuitesFrom_master cfg hf
    (suites.any fun st => treeHasFocus st.nodes) suites
    { amb with result := {} }
  rw [run_suites, hlist]
  simp only [Bool.false_eq_true, if_false]
  refine ⟨h.1, ?_⟩
  have h2 := h.2.1
  simpa [resSum] using h2

/-- The C1 counterexample tree: a group holding one passing case plus an
`after_all` hook that panics. -/
def c1node : TestNode :=
  .describe "g" false false [] [] [] [] [{ aid := 9, panics := some "boom" }]
    []
    [.it "t" false false [] none none none { aid := 1 }]

/-- C1 counterexample: the tree `c1node` has exactly one Case leaf, no
filters are configured (so that leaf is encountered and not filtered out),
yet the completed run counts `passed = 1` and `failed = 1` — the sum of the
four counters is 2, not 1, because the panicking `after_all` hook adds a
failure entry with no corresponding leaf.  This refutes the claim as
stated. -/
theorem claim_C1_counterexample :
    leafCounts [c1node] = 1 ∧
    (run_suites {} [⟨"", [c1node]⟩] {}).2.result =
      { passed := 1, failed := 1, pending := 0, skipped := 0,
        failures := ["g (after_all): boom"] } ∧
    resSum (run_suites {} [⟨"", [c1node]⟩] {}).2.result = 2 := by
  refine ⟨by decide, by decide, by decide⟩

/-- Witness for C1 amended: the counterexample run satisfies the amended
accounting (one leaf plus one group-hook failure entry). -/
theorem claim_C1_witness :
    (run_suites {} [⟨"", [c1node]⟩] {}).1 = none ∧
    resSum (run_suites {} [⟨"", [c1node]⟩] {}).2.result =
      suitesEnc {} ([(⟨"", [c1node]⟩ : Suite)].any fun st =>
        treeHasFocus st.nodes) [⟨"", [c1node]⟩] +
        suitesHookFails [⟨"", [c1node]⟩] :=
  claim_C1 {} [⟨"", [c1node]⟩] {} rfl rfl

/-- C10: the length of the failures list always equals the `failed`
counter: (a) a completed run returns a `RunResult` with
`failures.length = failed` (the result starts fresh at zero/empty); (b) at
node granularity, any traversal step started in a state satisfying the
invariant ends in a state satisfying it. -/
theorem claim_C10 (cfg : RunConfig) (hf : cfg.failOnFocus = false) :
    (∀ (suites : List Suite) (amb : ExecState),
      (run_suites cfg suites amb).2.result.failures.length =
        (run_suites cfg suites amb).2.result.failed) ∧
    (∀ (fm : Bool) (nodes : List TestNode) (path : List String)
      (chain : HookChain) (force : Bool) (s : ExecState),
      s.result.failures.length = s.result.failed →
      (runNodes cfg fm nodes path chain force s).2.result.failures.length =
        (runNodes cfg fm nodes path chain force s).2.result.failed) := by
  constructor
  · intro suites amb
    rw [run_suites]
    by_cases hl : cfg.list = true
    · simp [hl]
    · simp only [hl, Bool.false_eq_true, if_false]
      have h := (runSuitesFrom_master cfg hf
        (suites.any fun st => treeHasFocus st.nodes) suites
        { amb with result := {} }).2.2
      simp only [List.length_nil] at h
      omega
  · intro fm nodes path chain force s hinv
    have h := (runNodes_master cfg hf fm nodes path chain force s).2.2
    omega

/-- Witness for C10: the counterexample run from C1 (which has a hook
failure) and a one-node traversal from a state satisfying the invariant. -/
theorem claim_C10_witness :
    (run_suites {} [⟨"", [c1node]⟩] {}).2.result.failures.length =
      (run_suites {} [⟨"", [c1node]⟩] {}).2.result.failed ∧
    (runNodes {} false [c1node] [] {} false
        {}).2.result.failures.length =
      (runNodes {} false [c1node] [] {} false {}).2.result.failed :=
  ⟨(claim_C10 {} rfl).1 [⟨"", [c1node]⟩] {},
    (claim_C10 {} rfl).2 false [c1node] [] {} false {} rfl⟩

/-- The C3 failing input: an ordered sequence whose step calls
`skip("later")` and succeeds, followed by an ordinary passing case. -/
def c3nodes : List TestNode :=
  [.ordered "o" [] false [⟨"s1", { aid := 1, skips := some "later" }⟩],
    .it "t" false false [] none none none { aid := 2 }]

/-- C3: evaluation of the code at the failing input.  The ordered leaf's
step sets the runtime skip flag; the Ordered branch of `run_node` never
consumes it (reporting the sequence as passed), so the flag survives into
the next `It` leaf, whose succeeding body is then reported as skipped with
the stale reason — the trace shows closure 2 (the It body) did run.  This
contradicts the claim (and `skip`'s own documentation): the skip reason set
during the first leaf leaks into the second leaf's result. -/
theorem claim_C3 :
    runNodes {} false c3nodes [] {} false {} =
      (none,
        { trace := [Ev.act 1, Ev.act 2],
          result := { passed := 1, skipped := 1 } }) := by
  decide
end Rsspec
